import Mathlib

set_option maxRecDepth 8000

/-!
Verification of `render_jsonl.py`, a renderer turning Codex session logs in
JSON-lines format into a standalone HTML document.

The embedding models the Python program shallowly:
* JSON values produced by `json.loads` become the inductive type `JValue`
  (finite floats are modelled as scaled decimal integers `num m s`, denoting
  `m / 10 ^ s`; the non-finite floats `json.loads` also produces — from the
  literals `NaN`, `Infinity` and `-Infinity` — are `special k`; this
  preserves truthiness and equality-with-string checks, which is all the
  program inspects).
* Fallible Python code (attribute errors on non-dicts, type errors from
  `in` on non-containers, ...) is modelled with `Except PyErr`.
* The optional `markdown_it` dependency is modelled as absent
  (`MarkdownIt = None`), so the program's fallback branches
  (`esc(...).replace("\n", "<br/>")`) are the ones embedded.
* Reading the input file is modelled by passing the file's lines as a
  `List String`; the environment (`os.environ`) as `String → Option String`.
-/

/-- The kinds of Python exceptions the modelled code can raise. -/
inductive PyErr where
  | typeError
  | attributeError
  | valueError
  deriving DecidableEq, Repr

/-- The non-finite floats: `json.loads` produces them from the literals
`NaN`, `Infinity` and `-Infinity` (`float("nan")`, `float("inf")`,
`float("-inf")`). -/
inductive FSpec where
  | nan
  | inf
  | ninf
  deriving DecidableEq, Repr

/-- A value returned by `json.loads`.  Finite numbers are scaled decimals:
`num m s` denotes `m / 10 ^ s` (ints have `s = 0`); `special k` is one of
the non-finite floats. -/
inductive JValue where
  | null
  | bool (b : Bool)
  | num (m : Int) (s : Nat)
  | special (k : FSpec)
  | str (s : String)
  | arr (xs : List JValue)
  | obj (kvs : List (String × JValue))
  deriving Repr

mutual

def JValue.beq : JValue → JValue → Bool
  | .null, .null => true
  | .bool a, .bool b => a == b
  | .num a b, .num c d => a == c && b == d
  | .special a, .special b => a == b
  | .str a, .str b => a == b
  | .arr xs, .arr ys => JValue.beqList xs ys
  | .obj xs, .obj ys => JValue.beqObj xs ys
  | _, _ => false

def JValue.beqList : List JValue → List JValue → Bool
  | [], [] => true
  | x :: xs, y :: ys => JValue.beq x y && JValue.beqList xs ys
  | _, _ => false

def JValue.beqObj : List (String × JValue) → List (String × JValue) → Bool
  | [], [] => true
  | (k, v) :: xs, (k', v') :: ys => k == k' && JValue.beq v v' && JValue.beqObj xs ys
  | _, _ => false

end


/-- Python truthiness (`bool(v)`) of a JSON-loaded value. -/
def JValue.isTruthy : JValue → Bool
  | .null => false
  | .bool b => b
  | .num m _ => m != 0
  | .special _ => true
  | .str s => s != ""
  | .arr xs => !xs.isEmpty
  | .obj kvs => !kvs.isEmpty

/-- Python `v == "lit"` for a JSON-loaded value against a string literal. -/
def JValue.eqStr : JValue → String → Bool
  | .str t, s => t == s
  | _, _ => false

/-- Dict lookup; `json.loads` keeps the last of duplicate keys, so the last
binding wins. -/
def jLookup (kvs : List (String × JValue)) (k : String) : Option JValue :=
  (kvs.reverse.find? (fun kv => kv.1 == k)).map (fun kv => kv.2)

/-- Python `v.get(k)`: `AttributeError` unless `v` is a dict. -/
def pyGet (v : JValue) (k : String) : Except PyErr (Option JValue) :=
  match v with
  | .obj kvs => .ok (jLookup kvs k)
  | _ => .error .attributeError

/-- Python `v.get(k, d)`. -/
def pyGetD (v : JValue) (k : String) (d : JValue) : Except PyErr JValue :=
  (pyGet v k).map (fun o => o.getD d)

/-- Naive substring test on character lists (Python `needle in haystack`). -/
def strContainsSub (hay needle : List Char) : Bool :=
  (List.range (hay.length + 1)).any (fun i => needle.isPrefixOf (hay.drop i))

/-- Python `k in v` for a string key `k`: key test for dicts, substring test
for strings, membership for lists; `TypeError` on non-containers. -/
def pyContains (v : JValue) (k : String) : Except PyErr Bool :=
  match v with
  | .obj kvs => .ok (kvs.any (fun kv => kv.1 == k))
  | .str s => .ok (strContainsSub s.data k.data)
  | .arr xs => .ok (xs.any (fun x => x.eqStr k))
  | _ => .error .typeError

/-- Python `for x in v`: lists yield elements, strings yield 1-char strings,
dicts yield their keys; `TypeError` on non-iterables. -/
def pyIter : JValue → Except PyErr (List JValue)
  | .arr xs => .ok xs
  | .str s => .ok (s.data.map (fun c => .str (String.mk [c])))
  | .obj kvs => .ok (kvs.map (fun kv => .str kv.1))
  | _ => .error .typeError

/-- `str.join`-style concatenation with a separator. -/
def pyJoin (sep : String) : List String → String
  | [] => ""
  | [x] => x
  | x :: xs => x ++ sep ++ pyJoin sep xs

/-- Decimal rendering of the scaled number `m / 10 ^ s`. -/
def numToString (m : Int) (s : Nat) : String :=
  if s = 0 then toString m
  else
    let n := m.natAbs
    let ipart := n / 10 ^ s
    let fdigits := toString (n % 10 ^ s)
    let fpad := String.mk (List.replicate (s - fdigits.length) '0') ++ fdigits
    (if m < 0 then "-" else "") ++ toString ipart ++ "." ++ fpad

mutual

/-- Python `repr` of a JSON-loaded value (quoting of special characters
inside strings is simplified; the program never inspects that output). -/
def pyRepr : JValue → String
  | .null => "None"
  | .bool true => "True"
  | .bool false => "False"
  | .num m s => numToString m s
  | .special .nan => "nan"
  | .special .inf => "inf"
  | .special .ninf => "-inf"
  | .str s => "\x27" ++ s ++ "\x27"
  | .arr xs => "[" ++ pyJoin ", " (pyReprList xs) ++ "]"
  | .obj kvs => "\x7b" ++ pyJoin ", " (pyReprObj kvs) ++ "\x7d"

def pyReprList : List JValue → List String
  | [] => []
  | x :: xs => pyRepr x :: pyReprList xs

def pyReprObj : List (String × JValue) → List String
  | [] => []
  | (k, v) :: xs => ("\x27" ++ k ++ "\x27: " ++ pyRepr v) :: pyReprObj xs

end

/-- Python `str(v)` of a JSON-loaded value. -/
def pyStr : JValue → String
  | .str s => s
  | .arr xs => "[" ++ pyJoin ", " (pyReprList xs) ++ "]"
  | .obj kvs => "\x7b" ++ pyJoin ", " (pyReprObj kvs) ++ "\x7d"
  | v => pyRepr v

/-- The whitespace set of Python's `str.strip` / `str.isspace`. -/
def pyIsSpace (c : Char) : Bool :=
  (0x09 ≤ c.toNat && c.toNat ≤ 0x0d) || c = ' ' ||
  (0x1c ≤ c.toNat && c.toNat ≤ 0x1f) || c.toNat = 0x85 || c.toNat = 0xa0 ||
  c.toNat = 0x1680 || (0x2000 ≤ c.toNat && c.toNat ≤ 0x200a) ||
  c.toNat = 0x2028 || c.toNat = 0x2029 || c.toNat = 0x202f ||
  c.toNat = 0x205f || c.toNat = 0x3000

/-- Python `s.strip()`. -/
def pyStrip (s : String) : String :=
  String.mk (((s.data.dropWhile pyIsSpace).reverse.dropWhile pyIsSpace).reverse)

/-- Left-to-right, non-overlapping replacement on character lists
(Python `str.replace` with a non-empty pattern). -/
def replaceChars (pat rep : List Char) : List Char → List Char
  | [] => []
  | c :: rest =>
    if pat.isPrefixOf (c :: rest) ∧ pat ≠ [] then
      rep ++ replaceChars pat rep ((c :: rest).drop pat.length)
    else
      c :: replaceChars pat rep rest
termination_by l => l.length
decreasing_by
  · simp only [List.length_drop]
    have : 1 ≤ pat.length := by
      cases pat with
      | nil => simp at *
      | cons a t => simp
    simp [List.length_cons]
    omega
  · simp [List.length_cons]

/-- Python `s.replace(pat, rep)`. -/
def pyReplace (s pat rep : String) : String :=
  String.mk (replaceChars pat.data rep.data s.data)

/-- `esc` (src line 20): `html.escape(text, quote=False)`, i.e. the per-char
map `& ↦ &amp;`, `< ↦ &lt;`, `> ↦ &gt;`. -/
def escChar (c : Char) : List Char :=
  if c = '&' then "&amp;".data
  else if c = '<' then "&lt;".data
  else if c = '>' then "&gt;".data
  else [c]

def esc (s : String) : String :=
  String.mk (s.data.foldr (fun c acc => escChar c ++ acc) [])

/-! ## A model of `json.loads` (strict JSON parsing)

The constant literals `NaN`, `Infinity` and `-Infinity` parse to the
non-finite floats `special k`, as `json.loads` accepts them.  Corner cases
that the program never relies on are simplified: an unpaired `\uXXXX`
surrogate maps to `'\x00'`, and `1e2`-style floats lose their float-ness
(they become the scaled decimal used by `JValue.num`). -/

def skipWs : List Char → List Char :=
  List.dropWhile (fun c => c = ' ' || c = '\t' || c = '\n' || c = '\r')

def hexVal (c : Char) : Option Nat :=
  if '0' ≤ c ∧ c ≤ '9' then some (c.toNat - 48)
  else if 'a' ≤ c ∧ c ≤ 'f' then some (c.toNat - 87)
  else if 'A' ≤ c ∧ c ≤ 'F' then some (c.toNat - 55)
  else none

def digVal (c : Char) : Option Nat :=
  if '0' ≤ c ∧ c ≤ '9' then some (c.toNat - 48) else none

def takeDigits : List Char → (List Nat × List Char)
  | [] => ([], [])
  | c :: rest =>
    match digVal c with
    | some d => let p := takeDigits rest; (d :: p.1, p.2)
    | none => ([], c :: rest)

def natOfDigits : List Nat → Nat :=
  List.foldl (fun a d => a * 10 + d) 0

def parseHex4 : List Char → Option (Nat × List Char)
  | a :: b :: c :: d :: rest => do
      let x1 ← hexVal a
      let x2 ← hexVal b
      let x3 ← hexVal c
      let x4 ← hexVal d
      some (((x1 * 16 + x2) * 16 + x3) * 16 + x4, rest)
  | _ => none

def parseUEscape (rest : List Char) : Option (Char × List Char) :=
  match parseHex4 rest with
  | some (n, rest2) =>
    if 0xd800 ≤ n ∧ n < 0xdc00 then
      match rest2 with
      | '\\' :: 'u' :: rest3 =>
        match parseHex4 rest3 with
        | some (n2, rest4) =>
          if 0xdc00 ≤ n2 ∧ n2 < 0xe000 then
            some (Char.ofNat (0x10000 + (n - 0xd800) * 1024 + (n2 - 0xdc00)), rest4)
          else some (Char.ofNat n, rest2)
        | none => some (Char.ofNat n, rest2)
      | _ => some (Char.ofNat n, rest2)
    else some (Char.ofNat n, rest2)
  | none => none

def parseStringBody (fuel : Nat) (l : List Char) : Option (List Char × List Char) :=
  match fuel with
  | 0 => none
  | fuel + 1 =>
    match l with
    | [] => none
    | '"' :: rest => some ([], rest)
    | '\\' :: e :: rest =>
        let esc1 : Option (Char × List Char) :=
          match e with
          | '"' => some ('"', rest)
          | '\\' => some ('\\', rest)
          | '/' => some ('/', rest)
          | 'b' => some ('\x08', rest)
          | 'f' => some ('\x0c', rest)
          | 'n' => some ('\n', rest)
          | 'r' => some ('\r', rest)
          | 't' => some ('\t', rest)
          | 'u' => parseUEscape rest
          | _ => none
        match esc1 with
        | some (c, rest') => (parseStringBody fuel rest').map (fun p => (c :: p.1, p.2))
        | none => none
    | c :: rest =>
        if c.toNat < 0x20 then none
        else (parseStringBody fuel rest).map (fun p => (c :: p.1, p.2))

def parseExp (l : List Char) : Option (Option Int × List Char) :=
  let p : Bool × List Char :=
    match l with
    | '-' :: t => (true, t)
    | '+' :: t => (false, t)
    | _ => (false, l)
  match takeDigits p.2 with
  | ([], _) => none
  | (ds, r) =>
      let e : Int := (natOfDigits ds : Int)
      some (some (if p.1 then -e else e), r)

def parseNumber (l : List Char) : Option (JValue × List Char) :=
  let p : Bool × List Char :=
    match l with
    | '-' :: t => (true, t)
    | _ => (false, l)
  let neg := p.1
  let ipart : Option (Nat × List Char) :=
    match p.2 with
    | '0' :: t => some (0, t)
    | c :: t =>
        (match digVal c with
         | some d => let q := takeDigits t; some (natOfDigits (d :: q.1), q.2)
         | none => none)
    | [] => none
  match ipart with
  | none => none
  | some (ip, l2) =>
    let fpart : Option (List Nat × List Char) :=
      match l2 with
      | '.' :: t =>
          (match takeDigits t with
           | ([], _) => none
           | (ds, r) => some (ds, r))
      | _ => some ([], l2)
    match fpart with
    | none => none
    | some (fds, l3) =>
      let epart : Option (Option Int × List Char) :=
        match l3 with
        | 'e' :: t => parseExp t
        | 'E' :: t => parseExp t
        | _ => some (none, l3)
      match epart with
      | none => none
      | some (eo, l4) =>
        let mant : Nat := ip * 10 ^ fds.length + natOfDigits fds
        let mi : Int := if neg then -(mant : Int) else (mant : Int)
        let scale0 : Int := (fds.length : Int) - eo.getD 0
        let v : JValue :=
          if scale0 ≤ 0 then .num (mi * 10 ^ (-scale0).toNat) 0
          else .num mi scale0.toNat
        some (v, l4)

mutual

def parseValue : Nat → List Char → Option (JValue × List Char)
  | 0, _ => none
  | fuel + 1, l =>
    match l with
    | 'n' :: 'u' :: 'l' :: 'l' :: rest => some (.null, rest)
    | 't' :: 'r' :: 'u' :: 'e' :: rest => some (.bool true, rest)
    | 'f' :: 'a' :: 'l' :: 's' :: 'e' :: rest => some (.bool false, rest)
    | '"' :: rest => (parseStringBody (fuel + 1) rest).map (fun p => (.str (String.mk p.1), p.2))
    | '[' :: rest =>
        (match skipWs rest with
         | ']' :: r2 => some (.arr [], r2)
         | r1 => (parseElems fuel r1).map (fun p => (.arr p.1, p.2)))
    | '\x7b' :: rest =>
        (match skipWs rest with
         | '\x7d' :: r2 => some (.obj [], r2)
         | r1 => (parseMembers fuel r1).map (fun p => (.obj p.1, p.2)))
    | 'N' :: 'a' :: 'N' :: rest => some (.special .nan, rest)
    | 'I' :: 'n' :: 'f' :: 'i' :: 'n' :: 'i' :: 't' :: 'y' :: rest => some (.special .inf, rest)
    | '-' :: 'I' :: 'n' :: 'f' :: 'i' :: 'n' :: 'i' :: 't' :: 'y' :: rest =>
        some (.special .ninf, rest)
    | _ => parseNumber l

def parseElems : Nat → List Char → Option (List JValue × List Char)
  | 0, _ => none
  | fuel + 1, l =>
    match parseValue fuel l with
    | none => none
    | some (v, r) =>
        match skipWs r with
        | ',' :: r2 => (parseElems fuel (skipWs r2)).map (fun p => (v :: p.1, p.2))
        | ']' :: r2 => some ([v], r2)
        | _ => none

def parseMembers : Nat → List Char → Option (List (String × JValue) × List Char)
  | 0, _ => none
  | fuel + 1, l =>
    match l with
    | '"' :: rest =>
        (match parseStringBody (fuel + 1) rest with
         | none => none
         | some (kcs, r1) =>
            match skipWs r1 with
            | ':' :: r2 =>
                (match parseValue fuel (skipWs r2) with
                 | none => none
                 | some (v, r3) =>
                    match skipWs r3 with
                    | ',' :: r4 =>
                        (parseMembers fuel (skipWs r4)).map
                          (fun p => ((String.mk kcs, v) :: p.1, p.2))
                    | '\x7d' :: r4 => some ([(String.mk kcs, v)], r4)
                    | _ => none)
            | _ => none)
    | _ => none

end

/-- Model of `json.loads(line)`: `none` when a `json.JSONDecodeError` would
be raised. -/
def jsonParse (s : String) : Option JValue :=
  match parseValue (s.length + 2) (skipWs s.data) with
  | some (v, rest) => if skipWs rest = [] then some v else none
  | none => none

/-! ## `sanitize_html` (src lines 24-32)

`_SCRIPT_TAG_RE = re.compile(r"(?is)<\s*/?\s*script\b")`, each match is
replaced by `"&lt;" + match[1:]`.  The regex classes `\s` and `\w` are
modelled on their ASCII parts. -/

def isReSpace (c : Char) : Bool :=
  c = ' ' || c = '\t' || c = '\n' || c = '\r' || c = '\x0b' || c = '\x0c'

def isReWord (c : Char) : Bool :=
  ('a' ≤ c && c ≤ 'z') || ('A' ≤ c && c ≤ 'Z') || ('0' ≤ c && c ≤ '9') || c = '_'

/-- `\b` at a position: the previous char was a word char (`t` of `script`),
so the boundary holds iff the next char is absent or not a word char. -/
def boundaryOk : List Char → Bool
  | [] => true
  | c :: _ => !isReWord c

def scriptKw : List Char := ['s', 'c', 'r', 'i', 'p', 't']

/-- Match the keyword case-insensitively followed by a `\b` boundary;
returns the consumed characters and the remainder. -/
def matchKwBd : List Char → List Char → Option (List Char × List Char)
  | [], l => if boundaryOk l then some ([], l) else none
  | _ :: _, [] => none
  | k :: ks, c :: cs =>
      if c.toLower = k then (matchKwBd ks cs).map (fun p => (c :: p.1, p.2)) else none

/-- After `</`: match `\s*script\b`. -/
def matchAfterSlash : List Char → Option (List Char × List Char)
  | [] => matchKwBd scriptKw []
  | c :: cs =>
      if isReSpace c then (matchAfterSlash cs).map (fun p => (c :: p.1, p.2))
      else matchKwBd scriptKw (c :: cs)

/-- After `<`: match `\s*/?\s*script\b`. -/
def matchScriptTail : List Char → Option (List Char × List Char)
  | [] => matchKwBd scriptKw []
  | c :: cs =>
      if isReSpace c then (matchScriptTail cs).map (fun p => (c :: p.1, p.2))
      else if c = '/' then (matchAfterSlash cs).map (fun p => (c :: p.1, p.2))
      else matchKwBd scriptKw (c :: cs)

def matchKwBd_split :
    ∀ ks l cons rem, matchKwBd ks l = some (cons, rem) → l = cons ++ rem
  | [], l, cons, rem => by
      simp only [matchKwBd]
      split
      · rintro ⟨⟩; simp
      · rintro ⟨⟩
  | k :: ks, [], cons, rem => by simp [matchKwBd]
  | k :: ks, c :: cs, cons, rem => by
      simp only [matchKwBd]
      split
      · intro hx
        cases h : matchKwBd ks cs with
        | none => rw [h] at hx; simp at hx
        | some p =>
            rw [h] at hx
            simp at hx
            obtain ⟨h1, h2⟩ := hx
            have := matchKwBd_split ks cs p.1 p.2 (by rw [h])
            simp [← h1, ← h2, this]
      · rintro ⟨⟩

def matchAfterSlash_split :
    ∀ l cons rem, matchAfterSlash l = some (cons, rem) → l = cons ++ rem
  | [], cons, rem => fun h => by
      have := matchKwBd_split scriptKw [] cons rem h
      simpa using this
  | c :: cs, cons, rem => by
      simp only [matchAfterSlash]
      split
      · intro hx
        cases h : matchAfterSlash cs with
        | none => rw [h] at hx; simp at hx
        | some p =>
            rw [h] at hx
            simp at hx
            obtain ⟨h1, h2⟩ := hx
            have := matchAfterSlash_split cs p.1 p.2 (by rw [h])
            simp [← h1, ← h2, this]
      · exact matchKwBd_split scriptKw (c :: cs) cons rem

def matchScriptTail_split :
    ∀ l cons rem, matchScriptTail l = some (cons, rem) → l = cons ++ rem
  | [], cons, rem => fun h => by
      have := matchKwBd_split scriptKw [] cons rem h
      simpa using this
  | c :: cs, cons, rem => by
      simp only [matchScriptTail]
      split
      · intro hx
        cases h : matchScriptTail cs with
        | none => rw [h] at hx; simp at hx
        | some p =>
            rw [h] at hx
            simp at hx
            obtain ⟨h1, h2⟩ := hx
            have := matchScriptTail_split cs p.1 p.2 (by rw [h])
            simp [← h1, ← h2, this]
      · split
        · intro hx
          cases h : matchAfterSlash cs with
          | none => rw [h] at hx; simp at hx
          | some p =>
              rw [h] at hx
              simp at hx
              obtain ⟨h1, h2⟩ := hx
              have := matchAfterSlash_split cs p.1 p.2 (by rw [h])
              simp [← h1, ← h2, this]
        · exact matchKwBd_split scriptKw (c :: cs) cons rem

def matchScriptTail_rem_length {l cons rem} (h : matchScriptTail l = some (cons, rem)) :
    rem.length ≤ l.length := by
  have := matchScriptTail_split l cons rem h
  subst this
  simp

/-- `_SCRIPT_TAG_RE.sub(lambda m: "&lt;" + m.group(0)[1:], raw)` as a scan:
at each `<`, if the rest matches the tag pattern, emit `&lt;` plus the
matched text (the match minus its leading `<`) and continue after it. -/
def sanitizeGo (l : List Char) : List Char :=
  match l with
  | [] => []
  | c :: rest =>
    if c = '<' then
      match h : matchScriptTail rest with
      | some (cons, rem) => '&' :: 'l' :: 't' :: ';' :: (cons ++ sanitizeGo rem)
      | none => '<' :: sanitizeGo rest
    else c :: sanitizeGo rest
termination_by l.length
decreasing_by
  · have := matchScriptTail_rem_length h
    simp
    omega
  · simp
  · simp

/-- `sanitize_html` (src line 26). -/
def sanitize_html (raw : String) : String :=
  if raw = "" then raw else String.mk (sanitizeGo raw.data)

/-- A "script-tag opening" is present: some `<` is followed by
`\s*/?\s*script\b`. -/
def containsOpen : List Char → Bool
  | [] => false
  | c :: rest => (c = '<' && (matchScriptTail rest).isSome) || containsOpen rest

/-! ## Base64 (`base64.b64encode(...).decode("ascii")`) and UTF-8 -/

def b64Alphabet : List Char :=
  "ABCDEFGHIJKLMNOPQRSTUVWXYZabcdefghijklmnopqrstuvwxyz0123456789+/".data

def b64Char (n : Nat) : Char := b64Alphabet.getD n 'A'

/-- Standard base64 of a byte list, with `=` padding. -/
def b64EncodeBytes : List Nat → List Char
  | [] => []
  | [a] => [b64Char (a / 4), b64Char (a % 4 * 16), '=', '=']
  | [a, b] => [b64Char (a / 4), b64Char (a % 4 * 16 + b / 16), b64Char (b % 16 * 4), '=']
  | a :: b :: c :: rest =>
      b64Char (a / 4) :: b64Char (a % 4 * 16 + b / 16) ::
      b64Char (b % 16 * 4 + c / 64) :: b64Char (c % 64) :: b64EncodeBytes rest

/-- UTF-8 bytes of one character. -/
def utf8Char (c : Char) : List Nat :=
  let n := c.toNat
  if n < 0x80 then [n]
  else if n < 0x800 then [0xc0 + n / 64, 0x80 + n % 64]
  else if n < 0x10000 then [0xe0 + n / 4096, 0x80 + n / 64 % 64, 0x80 + n % 64]
  else [0xf0 + n / 262144, 0x80 + n / 4096 % 64, 0x80 + n / 64 % 64, 0x80 + n % 64]

/-- Python `s.encode("utf-8")` as a byte list. -/
def utf8Encode (s : String) : List Nat := (s.data.map utf8Char).flatten

/-- `base64.b64encode(patch_text.encode("utf-8")).decode("ascii")`
(src line 196). -/
def b64OfString (s : String) : String := String.mk (b64EncodeBytes (utf8Encode s))

/-- Spec-side base64 value of a character (inverse of `b64Char`). -/
def b64Val (c : Char) : Option Nat :=
  let i := b64Alphabet.indexOf c
  if i < 64 then some i else none

/-- Spec-side base64 decoding (what the client's `atob` recovers). -/
def b64DecodeChars : List Char → Option (List Nat)
  | [] => some []
  | c1 :: c2 :: c3 :: c4 :: rest =>
      (match b64Val c1, b64Val c2 with
       | some s1, some s2 =>
          if c3 = '=' then
            if c4 = '=' ∧ rest = [] then some [s1 * 4 + s2 / 16] else none
          else
            match b64Val c3 with
            | some s3 =>
                if c4 = '=' then
                  if rest = [] then some [s1 * 4 + s2 / 16, s2 % 16 * 16 + s3 / 4] else none
                else
                  match b64Val c4 with
                  | some s4 =>
                      (b64DecodeChars rest).map
                        (fun l => (s1 * 4 + s2 / 16) :: (s2 % 16 * 16 + s3 / 4) :: (s3 % 4 * 64 + s4) :: l)
                  | none => none
            | none => none
       | _, _ => none)
  | _ => none

/-- First byte of a UTF-8 sequence: number of continuation bytes and the
initial accumulator value. -/
def utf8Head (b : Nat) : Option (Nat × Nat) :=
  if b < 0x80 then some (0, b)
  else if b < 0xc0 then none
  else if b < 0xe0 then some (1, b - 0xc0)
  else if b < 0xf0 then some (2, b - 0xe0)
  else if b < 0xf8 then some (3, b - 0xf0)
  else none

/-- Consume `k` continuation bytes, accumulating the code point. -/
def utf8TakeCont : Nat → Nat → List Nat → Option (Nat × List Nat)
  | 0, acc, l => some (acc, l)
  | k + 1, acc, b :: l =>
      if 0x80 ≤ b ∧ b < 0xc0 then utf8TakeCont k (acc * 64 + (b - 0x80)) l else none
  | _ + 1, _, [] => none

/-- Spec-side UTF-8 decoding of a byte list (fuel-driven; one unit of fuel
per decoded character, so the byte count is always enough fuel). -/
def utf8DecodeF : Nat → List Nat → Option (List Char)
  | _, [] => some []
  | 0, _ :: _ => none
  | fuel + 1, b :: rest =>
      match utf8Head b with
      | none => none
      | some p =>
          match utf8TakeCont p.1 p.2 rest with
          | none => none
          | some q => (utf8DecodeF fuel q.2).map (fun cs => Char.ofNat q.1 :: cs)

def utf8Decode (l : List Nat) : Option (List Char) := utf8DecodeF l.length l

/-- Decoding a `data-raw-b64` attribute back to text: base64, then UTF-8. -/
def decodeRawB64Attr (s : String) : Option String :=
  (b64DecodeChars s.data).bind (fun bytes => (utf8Decode bytes).map String.mk)

/-! ## `json.dumps(v, indent=2)` (default `ensure_ascii=True`) -/

def hexDigit (n : Nat) : Char := "0123456789abcdef".data.getD n '0'

def toHex4 (n : Nat) : String :=
  String.mk [hexDigit (n / 4096 % 16), hexDigit (n / 256 % 16), hexDigit (n / 16 % 16), hexDigit (n % 16)]

def jsonQuoteChar (c : Char) : String :=
  if c = '"' then "\\\""
  else if c = '\\' then "\\\\"
  else if c = '\n' then "\\n"
  else if c = '\t' then "\\t"
  else if c = '\r' then "\\r"
  else if c = '\x08' then "\\b"
  else if c = '\x0c' then "\\f"
  else if c.toNat < 0x20 then "\\u" ++ toHex4 c.toNat
  else if c.toNat < 0x7f then String.mk [c]
  else if c.toNat < 0x10000 then "\\u" ++ toHex4 c.toNat
  else
    let n := c.toNat - 0x10000
    "\\u" ++ toHex4 (0xd800 + n / 1024) ++ "\\u" ++ toHex4 (0xdc00 + n % 1024)

def jsonQuote (s : String) : String :=
  "\"" ++ String.mk (s.data.foldr (fun c acc => (jsonQuoteChar c).data ++ acc) []) ++ "\""

def indentStr (lvl : Nat) : String := String.mk (List.replicate (lvl * 2) ' ')

mutual

def dumpsVal : JValue → Nat → String
  | .null, _ => "null"
  | .bool true, _ => "true"
  | .bool false, _ => "false"
  | .num m s, _ => numToString m s
  | .special .nan, _ => "NaN"
  | .special .inf, _ => "Infinity"
  | .special .ninf, _ => "-Infinity"
  | .str s, _ => jsonQuote s
  | .arr [], _ => "[]"
  | .arr (x :: xs), lvl =>
      "[\n" ++ dumpsItems (x :: xs) (lvl + 1) ++ "\n" ++ indentStr lvl ++ "]"
  | .obj [], _ => "\x7b\x7d"
  | .obj (kv :: kvs), lvl =>
      "\x7b\n" ++ dumpsMembers (kv :: kvs) (lvl + 1) ++ "\n" ++ indentStr lvl ++ "\x7d"

def dumpsItems : List JValue → Nat → String
  | [], _ => ""
  | [x], lvl => indentStr lvl ++ dumpsVal x lvl
  | x :: y :: xs, lvl => indentStr lvl ++ dumpsVal x lvl ++ ",\n" ++ dumpsItems (y :: xs) lvl

def dumpsMembers : List (String × JValue) → Nat → String
  | [], _ => ""
  | [(k, v)], lvl => indentStr lvl ++ jsonQuote k ++ ": " ++ dumpsVal v lvl
  | (k, v) :: m :: kvs, lvl =>
      indentStr lvl ++ jsonQuote k ++ ": " ++ dumpsVal v lvl ++ ",\n" ++ dumpsMembers (m :: kvs) lvl

end

/-- `json.dumps(v, indent=2)`. -/
def pyJsonDumps (v : JValue) : String := dumpsVal v 0

/-! ## `_pretty_timestamp` (src lines 35-53) -/

def parse2Digits : List Char → Option (Nat × List Char)
  | a :: b :: r =>
      (match digVal a, digVal b with
       | some x, some y => some (x * 10 + y, r)
       | _, _ => none)
  | _ => none

def parse4Digits : List Char → Option (Nat × List Char)
  | a :: b :: c :: d :: r =>
      (match digVal a, digVal b, digVal c, digVal d with
       | some x, some y, some z, some w => some (((x * 10 + y) * 10 + z) * 10 + w, r)
       | _, _, _, _ => none)
  | _ => none

def isLeapYear (y : Nat) : Bool := (y % 4 = 0 && y % 100 ≠ 0) || y % 400 = 0

def daysInMonth (y mo : Nat) : Nat :=
  if mo = 2 then (if isLeapYear y then 29 else 28)
  else if mo = 4 ∨ mo = 6 ∨ mo = 9 ∨ mo = 11 then 30
  else 31

def twoDigitStr (n : Nat) : String := (if n < 10 then "0" else "") ++ toString n

/-- Model of `datetime.fromisoformat` followed by
`strftime("%Y-%m-%d %H:%M:%S")`: parses the common
`YYYY-MM-DD[{T or space}HH:MM[:SS[.ffff]][±HH:MM[:SS]]]` shapes and
reformats; exotic inputs fall through to `none` (the regex fallback). -/
def isoFormat (s : String) : Option String := do
  let (y, r1) ← parse4Digits s.data
  let r2 ← match r1 with | '-' :: t => some t | _ => none
  let (mo, r3) ← parse2Digits r2
  let r4 ← match r3 with | '-' :: t => some t | _ => none
  let (d, r5) ← parse2Digits r4
  if 1 ≤ mo ∧ mo ≤ 12 ∧ 1 ≤ d ∧ d ≤ daysInMonth y mo then
    let dateStr := toString y ++ "-" ++ twoDigitStr mo ++ "-" ++ twoDigitStr d
    match r5 with
    | [] => some (dateStr ++ " 00:00:00")
    | sep :: r6 =>
      if sep = 'T' ∨ sep = ' ' then do
        let (h, r7) ← parse2Digits r6
        let r8 ← match r7 with | ':' :: t => some t | _ => none
        let (mi, r9) ← parse2Digits r8
        let (sec, r10) ←
          match r9 with
          | ':' :: t =>
              (match parse2Digits t with
               | some (sec, r) =>
                  (match r with
                   | '.' :: t2 =>
                       (match takeDigits t2 with
                        | ([], _) => none
                        | (_, r3') => some (sec, r3'))
                   | _ => some (sec, r))
               | none => none)
          | _ => some (0, r9)
        let rdone ←
          match r10 with
          | [] => some ([] : List Char)
          | c :: t =>
              if c = '+' ∨ c = '-' then do
                let (oh, o1) ← parse2Digits t
                let o2 ← match o1 with | ':' :: t2 => some t2 | _ => none
                let (om, o3) ← parse2Digits o2
                let o4 ←
                  match o3 with
                  | ':' :: t3 =>
                      (match parse2Digits t3 with
                       | some (os, r') => if os < 60 then some r' else none
                       | none => none)
                  | _ => some o3
                if oh < 24 ∧ om < 60 ∧ o4 = [] then some ([] : List Char) else none
              else none
        if h < 24 ∧ mi < 60 ∧ sec < 60 ∧ rdone = [] then
          some (dateStr ++ " " ++ twoDigitStr h ++ ":" ++ twoDigitStr mi ++ ":" ++ twoDigitStr sec)
        else none
      else none
  else none

/-- Try the fallback regex `(\d{4}-\d{2}-\d{2})[T ](\d{2}):(\d{2}):(\d{2})`
at one position. -/
def tsRegexAt (l : List Char) : Option String := do
  let (_, r1) ← parse4Digits l
  let date10 := l.take 10
  let r2 ← match r1 with | '-' :: t => some t | _ => none
  let (_, r3) ← parse2Digits r2
  let r4 ← match r3 with | '-' :: t => some t | _ => none
  let (_, r5) ← parse2Digits r4
  let r6 ← match r5 with
           | 'T' :: t => some t
           | ' ' :: t => some t
           | _ => none
  let (h, r7) ← parse2Digits r6
  let r8 ← match r7 with | ':' :: t => some t | _ => none
  let (mi, r9) ← parse2Digits r8
  let r10 ← match r9 with | ':' :: t => some t | _ => none
  let (sec, _) ← parse2Digits r10
  some (String.mk date10 ++ " " ++ twoDigitStr h ++ ":" ++ twoDigitStr mi ++ ":" ++ twoDigitStr sec)

def tsSearch : List Char → Option String
  | [] => none
  | c :: rest =>
      match tsRegexAt (c :: rest) with
      | some out => some out
      | none => tsSearch rest

/-- `_pretty_timestamp(ts_raw)` (src line 35): `""` for falsy input, else
`fromisoformat` (after replacing `Z` with `+00:00`) formatted as
`%Y-%m-%d %H:%M:%S`, else the regex fallback, else the string itself. -/
def prettyTimestamp (tsRaw : JValue) : String :=
  if !tsRaw.isTruthy then ""
  else
    let s := pyStr tsRaw
    let s2 := pyReplace s "Z" "+00:00"
    match isoFormat s2 with
    | some out => out
    | none =>
        match tsSearch s.data with
        | some out => out
        | none => s

/-! ## Decidable equality of `JValue` (used by concrete witnesses) -/

mutual

def JValue.beq_iff : ∀ a b : JValue, JValue.beq a b = true ↔ a = b
  | .null, b => by cases b <;> simp [JValue.beq]
  | .bool a, b => by cases b <;> simp [JValue.beq]
  | .num a s, b => by cases b <;> simp [JValue.beq]
  | .special a, b => by cases b <;> simp [JValue.beq]
  | .str a, b => by cases b <;> simp [JValue.beq]
  | .arr xs, b => by
      cases b <;> simp [JValue.beq]
      exact JValue.beqList_iff xs _
  | .obj xs, b => by
      cases b <;> simp [JValue.beq]
      exact JValue.beqObj_iff xs _

def JValue.beqList_iff : ∀ xs ys : List JValue, JValue.beqList xs ys = true ↔ xs = ys
  | [], ys => by cases ys <;> simp [JValue.beqList]
  | x :: xs, ys => by
      cases ys with
      | nil => simp [JValue.beqList]
      | cons y ys =>
          simp [JValue.beqList, JValue.beq_iff x y, JValue.beqList_iff xs ys]

def JValue.beqObj_iff : ∀ xs ys : List (String × JValue), JValue.beqObj xs ys = true ↔ xs = ys
  | [], ys => by cases ys <;> simp [JValue.beqObj]
  | (k, v) :: xs, ys => by
      cases ys with
      | nil => simp [JValue.beqObj]
      | cons y ys =>
          obtain ⟨k', v'⟩ := y
          simp [JValue.beqObj, JValue.beq_iff v v', JValue.beqObj_iff xs ys]

end

instance : DecidableEq JValue := fun a b =>
  decidable_of_iff (JValue.beq a b = true) (JValue.beq_iff a b)

/-! ## Block templates

Each `…Html` builder is the f-string template of the corresponding
renderer in the source, with its interpolation slots as parameters.
Apostrophes in the literals are written `\x27`. -/

def reasoningHtml (tsInline contentHtml : String) : String :=
  "\n    <div class=\x27block reasoning collapsible\x27>\n      <div class=\x27label-row\x27>\n        <div class=\x27label\x27>Reasoning (summary only)</div>\n        <div class=\x27actions\x27>\n          " ++ tsInline ++ "\n          <button class=\x27toggle\x27 type=\x27button\x27 aria-expanded=\x27true\x27>Collapse</button>\n        </div>\n      </div>\n      <div class=\x27collapsible-content\x27>\n        <div class=\x27text markdown\x27>" ++ contentHtml ++ "</div>\n      </div>\n    </div>\n    "

def messageHtml (cssClass label tsInline textHtml : String) : String :=
  "\n    <div class=\x27block " ++ cssClass ++ "\x27>\n      <div class=\x27label-row\x27>\n        <div class=\x27label\x27>" ++ label ++ "</div>\n        <div class=\x27actions\x27>" ++ tsInline ++ "</div>\n      </div>\n      <div class=\x27text markdown\x27>" ++ textHtml ++ "</div>\n    </div>\n    "

def planHtml (tsInline explHtml itemsJoined : String) : String :=
  "\n    <div class=\x27block plan\x27>\n      <div class=\x27label-row\x27>\n        <div class=\x27label\x27>Plan Update</div>\n        <div class=\x27actions\x27>" ++ tsInline ++ "</div>\n      </div>\n      " ++ (if explHtml ≠ "" then "<div class=\"text markdown\">" ++ explHtml ++ "</div>" else "") ++ "\n      <ul class=\x27plan-list\x27>\n        " ++ itemsJoined ++ "\n      </ul>\n    </div>\n    "

def applyPatchHtml (tsInline escRawB64 escPatch : String) : String :=
  "\n    <div class=\x27block func-call collapsible apply-patch\x27 data-raw-b64=\x27" ++ escRawB64 ++ "\x27>\n      <div class=\x27label-row\x27>\n        <div class=\x27label\x27>Apply Patch</div>\n        <div class=\x27actions\x27>\n          " ++ tsInline ++ "\n          <button class=\x27toggle\x27 type=\x27button\x27 aria-expanded=\x27true\x27>Collapse</button>\n          <button class=\x27copy\x27 type=\x27button\x27 title=\x27Copy patch to clipboard\x27>Copy</button>\n        </div>\n      </div>\n      <div class=\x27collapsible-content\x27>\n        <pre class=\x27code diff\x27><code class=\x27language-diff\x27>" ++ escPatch ++ "</code></pre>\n      </div>\n    </div>\n    "

def funcCallHtml (nameHtml tsInline body : String) : String :=
  "\n    <div class=\x27block func-call\x27>\n      <div class=\x27label-row\x27>\n        <div class=\x27label\x27>Function Call: " ++ nameHtml ++ "</div>\n        <div class=\x27actions\x27>" ++ tsInline ++ "</div>\n      </div>\n      <pre class=\x27code\x27>" ++ body ++ "</pre>\n    </div>\n    "

def funcOutputHtml (isLarge : Bool) (tsInline body : String) : String :=
  let collapsedClass := if isLarge then " collapsed" else ""
  let ariaExpanded := if isLarge then "false" else "true"
  let toggleLabel := if isLarge then "Expand" else "Collapse"
  "\n    <div class=\x27block func-output collapsible" ++ collapsedClass ++ "\x27>\n      <div class=\x27label-row\x27>\n        <div class=\x27label\x27>Function Output</div>\n        <div class=\x27actions\x27>\n          " ++ tsInline ++ "\n          <button class=\x27toggle\x27 type=\x27button\x27 aria-expanded=\x27" ++ ariaExpanded ++ "\x27>" ++ toggleLabel ++ "</button>\n        </div>\n      </div>\n      <div class=\x27collapsible-content\x27>\n        <pre class=\x27code\x27>" ++ esc body ++ "</pre>\n      </div>\n    </div>\n    "

def sessionHtml (tsInline escPath partsJoined : String) : String :=
  "\n    <div class=\x27session\x27>\n      <div class=\x27header-row\x27>\n        <div class=\x27title\x27>Codex Session Log</div>\n        " ++ tsInline ++ "\n      </div>\n      <div class=\x27subtitle\x27>" ++ escPath ++ "</div>\n      " ++ partsJoined ++ "\n    </div>\n    "

def unparsedLineBlock (line : String) : String :=
  "<div class=\x27block func-output\x27><div class=\x27label\x27>Unparsed Line</div><pre class=\x27code\x27>" ++ esc line ++ "</pre></div>"

def fallbackBlock (typ : Option JValue) (entry : JValue) : String :=
  "<div class=\x27block func-output\x27><div class=\x27label\x27>Event: " ++ esc (pyStr (typ.getD .null)) ++ "</div><pre class=\x27code\x27>" ++ esc (pyJsonDumps entry) ++ "</pre></div>"

/-! ## Renderers -/

/-- `esc(v)` for a JSON value: `html.escape` calls `.replace` on its
argument, so a non-string raises `AttributeError`. -/
def pyEscJ (v : JValue) : Except PyErr String :=
  match v with
  | .str s => .ok (esc s)
  | _ => .error .attributeError

/-- Loop of `render_reasoning` (src lines 60-62): collect
`part.get("text", "")` of parts whose `type` equals `"summary_text"`. -/
def collectSummaryTexts : List JValue → Except PyErr (List JValue)
  | [] => .ok []
  | part :: rest =>
      pyGet part "type" >>= fun t =>
      (if (t.getD .null).eqStr "summary_text" then
        (pyGetD part "text" (.str "")).map (fun tv => [tv])
      else .ok []) >>= fun hd =>
      collectSummaryTexts rest >>= fun tl =>
      .ok (hd ++ tl)

/-- `"\n\n".join(raw_texts)`: `TypeError` when a collected value is not a
string. -/
def joinStrs (sep : String) : List JValue → Except PyErr String := fun xs => do
  let rec strs : List JValue → Except PyErr (List String)
    | [] => .ok []
    | .str s :: rest => (strs rest).map (s :: ·)
    | _ :: _ => .error .typeError
  let ss ← strs xs
  return pyJoin sep ss

/-- `render_reasoning` (src line 56), with `MarkdownIt` absent. -/
def render_reasoning (entry : JValue) (tsInline : String) : Except PyErr String := do
  let sv := (← pyGet entry "summary").getD .null
  let parts ← pyIter (if sv.isTruthy then sv else .arr [])
  let rawTexts ← collectSummaryTexts parts
  if rawTexts.isEmpty then
    return ""
  else
    let joined ← joinStrs "\n\n" rawTexts
    let contentHtml := pyReplace (esc joined) "\n" "<br/>"
    return reasoningHtml tsInline contentHtml

/-- Loop of `render_message` (src lines 93-97): keep string `text` items. -/
def collectMessageTexts : List JValue → Except PyErr (List String)
  | [] => .ok []
  | part :: rest => do
      let t ← pyGet part "text"
      let tl ← collectMessageTexts rest
      match t with
      | some (.str s) => return s :: tl
      | _ => return tl

/-- `render_message` (src line 88), with `MarkdownIt` absent. -/
def render_message (entry : JValue) (tsInline : String) : Except PyErr String := do
  let role := (← pyGet entry "role").getD (.str "assistant")
  let cv := (← pyGet entry "content").getD .null
  let parts ← pyIter (if cv.isTruthy then cv else .arr [])
  let texts ← collectMessageTexts parts
  let text := pyJoin "\n\n" texts
  let textHtml := pyReplace (esc text) "\n" "<br/>"
  let cssClass := if role.eqStr "user" then "user" else "assistant"
  let label := if role.eqStr "user" then "User" else "Assistant"
  return messageHtml cssClass label tsInline textHtml

/-- `parse_json_string_maybe` (src line 118): `(obj, ok)`. -/
def parse_json_string_maybe : Option JValue → (Option JValue × Bool)
  | some (.obj kvs) => (some (.obj kvs), true)
  | some (.arr xs) => (some (.arr xs), true)
  | some (.str s) =>
      (match jsonParse s with
       | some r => (some r, true)
       | none => (some (.str s), false))
  | _ => (none, false)

/-- Python `s.lower()` (character-wise; kernel-friendly). -/
def pyLower (s : String) : String := String.mk (s.data.map Char.toLower)

/-- `sym(status)` inside `render_plan_update` (src lines 134-140):
`(status or "").lower()` raises on a truthy non-string. -/
def planSym (status : JValue) : Except PyErr String :=
  match (if status.isTruthy then status else .str "") with
  | .str s =>
      let low := pyLower s
      if low = "completed" then .ok "✅"
      else if low = "in_progress" then .ok "⏳"
      else .ok "☐"
  | _ => .error .attributeError

/-- Item loop of `render_plan_update` (src lines 142-146). -/
def renderPlanItems : List JValue → Except PyErr (List String)
  | [] => .ok []
  | it :: rest => do
      let itv := if it.isTruthy then it else .obj []
      let step ← pyGetD itv "step" (.str "")
      let status ← pyGetD itv "status" (.str "pending")
      let sym ← planSym status
      let stepHtml ← pyEscJ step
      let tl ← renderPlanItems rest
      return ("<li><span class=\x27plan-sym\x27>" ++ sym ++ "</span> " ++ stepHtml ++ "</li>") :: tl

/-- `expl_html` of `render_plan_update` (src lines 148-153), with
`MarkdownIt` absent: `esc(explanation).replace(...) if explanation else ''`. -/
def explHtmlOf (v : JValue) : Except PyErr String :=
  if v.isTruthy then
    match v with
    | .str s => .ok (pyReplace (esc s) "\n" "<br/>")
    | _ => .error .attributeError
  else .ok ""

/-- `render_plan_update` (src line 130), with `MarkdownIt` absent. -/
def render_plan_update (argsObj : JValue) (tsInline : String) : Except PyErr String :=
  let ao := if argsObj.isTruthy then argsObj else .obj []
  pyGet ao "explanation" >>= fun explanation0 =>
  let explanation := explanation0.getD .null
  let explanationV := if explanation.isTruthy then explanation else .str ""
  pyGet ao "plan" >>= fun planV0 =>
  let planV := planV0.getD .null
  pyIter (if planV.isTruthy then planV else .arr []) >>= fun planItems =>
  renderPlanItems planItems >>= fun itemsHtml =>
  explHtmlOf explanationV >>= fun explHtml =>
  .ok (planHtml tsInline explHtml (String.join itemsHtml))

def firstIdxOf (pat l : List Char) : Option Nat :=
  (List.range (l.length + 1)).find? (fun i => pat.isPrefixOf (l.drop i))

def lastIdxOf (pat l : List Char) : Option Nat :=
  (List.range (l.length + 1)).reverse.find? (fun i => pat.isPrefixOf (l.drop i))

/-- `re.search(r"\*\*\* Begin Patch(.*)\*\*\* End Patch", s, re.DOTALL)`:
the greedy `(.*)` runs from the first begin marker to the last end marker
after it. -/
def extractBeginEnd (s : String) : Option String :=
  let l := s.data
  let bp := "*** Begin Patch".data
  match firstIdxOf bp l with
  | none => none
  | some i =>
      let tail := l.drop (i + bp.length)
      match lastIdxOf "*** End Patch".data tail with
      | none => none
      | some j => some ("*** Begin Patch" ++ String.mk (tail.take j) ++ "*** End Patch")

def searchPatchParts : List JValue → Option String
  | [] => none
  | part :: rest =>
      match extractBeginEnd (pyStr part) with
      | some m => some m
      | none => searchPatchParts rest

/-- `extract_patch_from_command` (src lines 179-190). -/
def extract_patch_from_command (cmd : JValue) : Option String :=
  match cmd with
  | .arr xs =>
      if 2 ≤ xs.length ∧ pyStr (xs.getD 0 .null) = "apply_patch" then
        some (pyStr (xs.getD 1 .null))
      else
        searchPatchParts xs
  | _ => none

def isObjB : Option JValue → Bool
  | some (.obj _) => true
  | _ => false

/-- `render_function_call` (src line 169). -/
def render_function_call (entry : JValue) (tsInline : String) : Except PyErr String := do
  let name := (← pyGet entry "name").getD (.str "function")
  let argsRaw ← pyGet entry "arguments"
  let p := parse_json_string_maybe argsRaw
  if name.eqStr "update_plan" ∧ p.2 ∧ isObjB p.1 then
    render_plan_update (p.1.getD .null) tsInline
  else
    let patchOut : Option String :=
      if p.2 ∧ isObjB p.1 then
        match p.1.getD .null with
        | .obj akvs => extract_patch_from_command ((jLookup akvs "command").getD .null)
        | _ => none
      else none
    match patchOut with
    | some patchText =>
        let rawB64 := b64OfString patchText
        return applyPatchHtml tsInline (esc rawB64) (esc patchText)
    | none =>
        let body : String :=
          if p.2 ∧ isObjB p.1 then
            match p.1.getD .null with
            | .obj akvs =>
                (match (jLookup akvs "command").getD .null with
                 | .arr cs => "$ " ++ esc (pyJoin " " (cs.map pyStr))
                 | _ => esc (pyJsonDumps (.obj akvs)))
            | _ => ""
          else esc (pyStr (argsRaw.getD .null))
        let nameHtml ← pyEscJ name
        return funcCallHtml nameHtml tsInline body

/-- Body extraction of `render_function_output` (src lines 236-246). -/
def extractOutputBody (entry : JValue) : Except PyErr String := do
  let outRaw ← pyGet entry "output"
  let p := parse_json_string_maybe outRaw
  let bodyJ : JValue :=
    if p.2 && (match p.1 with
               | some (.obj kvs) => kvs.any (fun kv => kv.1 == "output")
               | _ => false) then
      (match p.1 with
       | some (.obj kvs) => (jLookup kvs "output").getD .null
       | _ => .null)
    else outRaw.getD .null
  match bodyJ with
  | .str s => return s
  | v => return pyJsonDumps v

/-- Single-underscore-grouped digits of Python `int(str)`. -/
def intDigitsTail : List Char → Option (List Nat)
  | [] => some []
  | '_' :: c :: rest =>
      (match digVal c with
       | some d => (intDigitsTail rest).map (d :: ·)
       | none => none)
  | ['_'] => none
  | c :: rest =>
      (match digVal c with
       | some d => (intDigitsTail rest).map (d :: ·)
       | none => none)

/-- Python `int(s)`: `none` when `ValueError` would be raised. -/
def pyIntParse (s : String) : Option Int :=
  let l := (s.data.dropWhile pyIsSpace).reverse.dropWhile pyIsSpace |>.reverse
  let p : Bool × List Char :=
    match l with
    | '-' :: t => (true, t)
    | '+' :: t => (false, t)
    | _ => (false, l)
  match p.2 with
  | [] => none
  | '_' :: _ => none
  | _ => (intDigitsTail p.2).map
      (fun ds => let n := natOfDigits ds; if p.1 then -(n : Int) else (n : Int))

/-- `int(os.environ.get(key, ...))` with fallback to the default on any
exception (src lines 251-258). -/
def envThresh (env : String → Option String) (key : String) (dflt : Int) : Int :=
  match env key with
  | none => dflt
  | some s => (pyIntParse s).getD dflt

def countNl (s : String) : Nat := s.data.countP (fun c => c = '\n')

/-- `is_large` (src line 259). -/
def isLargeOutput (env : String → Option String) (body : String) : Bool :=
  let charThresh := envThresh env "COLLAPSE_OUTPUT_CHAR_THRESHOLD" 15000
  let lineThresh := envThresh env "COLLAPSE_OUTPUT_LINE_THRESHOLD" 300
  (charThresh ≤ (body.length : Int)) || (lineThresh ≤ ((countNl body : Int) + 1))

/-- `render_function_output` (src line 235). -/
def render_function_output (env : String → Option String) (entry : JValue)
    (tsInline : String) : Except PyErr String := do
  let body ← extractOutputBody entry
  if pyStrip body = "Plan updated" then
    return ""
  else
    return funcOutputHtml (isLargeOutput env body) tsInline body

/-- One `parts.append(f"<div><b>…</b> {esc(v)}</div>")` guarded by
truthiness of the field (src lines 282-293). -/
def headerPart (v : JValue) (pre post : String) : Except PyErr (List String) :=
  if v.isTruthy then (pyEscJ v).map (fun h => [pre ++ h ++ post]) else .ok []

/-- The git sub-fields (src lines 286-293): `git.get(...)` raises on a
truthy non-dict `git`. -/
def gitParts (git : JValue) : Except PyErr (List String) :=
  if git.isTruthy then
    pyGet git "repository_url" >>= fun ru =>
    headerPart (ru.getD .null) "<div><b>Repo:</b> " "</div>" >>= fun p1 =>
    pyGet git "branch" >>= fun br =>
    headerPart (br.getD .null) "<div><b>Branch:</b> " "</div>" >>= fun p2 =>
    pyGet git "commit_hash" >>= fun ch =>
    headerPart (ch.getD .null) "<div><b>Commit:</b> <code>" "</code></div>" >>= fun p3 =>
    .ok (p1 ++ p2 ++ p3)
  else .ok []

/-- `render_session_header` (src line 279). -/
def render_session_header (meta : JValue) (sourcePath : String)
    (tsInline : String) : Except PyErr String :=
  pyGet meta "id" >>= fun idV =>
  headerPart (idV.getD .null) "<div><b>Session:</b> " "</div>" >>= fun parts1 =>
  pyGet meta "timestamp" >>= fun tsV =>
  headerPart (tsV.getD .null) "<div><b>Started:</b> " "</div>" >>= fun parts2 =>
  pyGet meta "git" >>= fun gitV0 =>
  let gitV := gitV0.getD .null
  gitParts (if gitV.isTruthy then gitV else .obj []) >>= fun parts3 =>
  let parts := parts1 ++ parts2 ++ parts3
  if parts.isEmpty then .ok ""
  else .ok (sessionHtml tsInline (esc sourcePath) (String.join parts))

/-! ## The per-line loop of `render_jsonl_to_html` (src lines 411-472) -/

structure LoopState where
  blocks : List String
  headerDone : Bool
  wrappedMode : Option Bool
  deriving Repr, DecidableEq

/-- Wire-format detection (src line 433):
`isinstance(raw_obj, dict) and "payload" in raw_obj and "timestamp" in raw_obj`. -/
def isWrappedVal (v : JValue) : Bool :=
  match v with
  | .obj kvs => (kvs.any (fun kv => kv.1 == "payload")) && (kvs.any (fun kv => kv.1 == "timestamp"))
  | _ => false

/-- Unwrapping under a fixed mode (src lines 438-445): in wrapped mode use
`(raw_obj or {}).get("timestamp")` / `.get("payload") or {}`, otherwise the
raw value with an empty inline timestamp. -/
def unwrapEntry (mode : Bool) (rawObj : JValue) : Except PyErr (String × JValue) := do
  if mode then
    let base := if rawObj.isTruthy then rawObj else .obj []
    let tsRaw ← pyGet base "timestamp"
    let entryV := (← pyGet base "payload").getD .null
    let entry := if entryV.isTruthy then entryV else .obj []
    let tsPretty := prettyTimestamp (tsRaw.getD .null)
    let tsInline :=
      if tsPretty ≠ "" then "<span class=\x27ts-inline\x27>" ++ esc tsPretty ++ "</span>" else ""
    return (tsInline, entry)
  else
    return ("", rawObj)

/-- The `type` dispatch (src lines 457-470). -/
def renderByType (env : String → Option String) (entry : JValue) (tsInline : String)
    (typ : Option JValue) : Except PyErr String :=
  if (typ.getD .null).eqStr "reasoning" then render_reasoning entry tsInline
  else if (typ.getD .null).eqStr "message" then render_message entry tsInline
  else if (typ.getD .null).eqStr "function_call" then render_function_call entry tsInline
  else if (typ.getD .null).eqStr "function_call_output" then render_function_output env entry tsInline
  else .ok (fallbackBlock typ entry)

/-- The `record_type` skip and `type` dispatch (src lines 453-470). -/
def dispatchEntry (env : String → Option String) (entry : JValue) (tsInline : String)
    (st : LoopState) : Except PyErr LoopState :=
  pyGet entry "record_type" >>= fun rt =>
  if (rt.getD .null).eqStr "state" then
    .ok st
  else
    pyGet entry "type" >>= fun typ =>
    renderByType env entry tsInline typ >>= fun block =>
    .ok { st with blocks := st.blocks ++ [block] }

/-- `"timestamp" in entry or "git" in entry or "instructions" in entry`
(src line 448), with Python's left-to-right short-circuiting. -/
def headerCheck (entry : JValue) : Except PyErr Bool :=
  pyContains entry "timestamp" >>= fun c1 =>
  if c1 then .ok true
  else
    pyContains entry "git" >>= fun c2 =>
    if c2 then .ok true else pyContains entry "instructions"

/-- The body of the loop from the session-header check on
(src lines 447-470), applied to the unwrapped entry. -/
def processParsed (env : String → Option String) (sourcePath : String)
    (st1 : LoopState) (tsInline : String) (entry : JValue) : Except PyErr LoopState :=
  if !st1.headerDone then
    headerCheck entry >>= fun hasHdr =>
    if hasHdr then
      render_session_header entry sourcePath tsInline >>= fun hdr =>
      .ok { st1 with blocks := st1.blocks ++ [hdr], headerDone := true }
    else
      dispatchEntry env entry tsInline st1
  else
    dispatchEntry env entry tsInline st1

/-- One iteration of the `for line in f` loop (src lines 418-470). -/
def processLine (env : String → Option String) (sourcePath : String)
    (st : LoopState) (rawLine : String) : Except PyErr LoopState :=
  let line := pyStrip rawLine
  if line = "" then
    .ok st
  else
    match jsonParse line with
    | none => .ok { st with blocks := st.blocks ++ [unparsedLineBlock line] }
    | some rawObj =>
        let mode := st.wrappedMode.getD (isWrappedVal rawObj)
        let st1 : LoopState := { st with wrappedMode := some mode }
        unwrapEntry mode rawObj >>= fun pr =>
        processParsed env sourcePath st1 pr.1 pr.2

def initLoopState : LoopState := ⟨[], false, none⟩

/-- The whole per-line loop over the file's lines. -/
def render_jsonl_blocks (env : String → Option String) (sourcePath : String)
    (lines : List String) : Except PyErr LoopState :=
  lines.foldlM (processLine env sourcePath) initLoopState

/-- `''.join(b for b in blocks if b)` (src line 641): the non-empty blocks
that make up the document body (the surrounding style/toolbar/script
wrapper is static text containing no blocks). -/
def documentBlocks (st : LoopState) : List String :=
  st.blocks.filter (fun b => b ≠ "")

/-! ## Spec-side predicates used in the theorem statements -/

/-- The first successfully JSON-parsed (stripped, non-empty) line decides
the wire mode. -/
def modeOfLines : List String → Option Bool
  | [] => none
  | l :: rest =>
      let s := pyStrip l
      if s = "" then modeOfLines rest
      else
        match jsonParse s with
        | none => modeOfLines rest
        | some v => some (isWrappedVal v)

/-- A session-header block: output of `render_session_header`'s template. -/
def isHeaderBlockB (s : String) : Bool :=
  "\n    <div class=\x27session\x27>".data.isPrefixOf s.data

def countHdr (blocks : List String) : Nat := blocks.countP (fun b => isHeaderBlockB b)

/-- A value that, where the code renders it via `esc`/`lower`, is a string:
missing or falsy values are allowed too. -/
def truthyImpStr (o : Option JValue) : Bool :=
  match o with
  | some (.str _) => true
  | some v => !v.isTruthy
  | none => true

def strOrMissing (o : Option JValue) : Bool :=
  match o with
  | none => true
  | some (.str _) => true
  | some _ => false

/-- The session-header fields render without an exception. -/
def headerOK (kvs : List (String × JValue)) : Bool :=
  truthyImpStr (jLookup kvs "id") && truthyImpStr (jLookup kvs "timestamp") &&
  (match jLookup kvs "git" with
   | none => true
   | some g => !g.isTruthy ||
       (match g with
        | .obj gk => truthyImpStr (jLookup gk "repository_url") &&
            truthyImpStr (jLookup gk "branch") && truthyImpStr (jLookup gk "commit_hash")
        | _ => false))

def summaryPartOK (x : JValue) : Bool :=
  match x with
  | .obj p => !((jLookup p "type").getD .null).eqStr "summary_text" || strOrMissing (jLookup p "text")
  | _ => false

def falsyOrArrAll (p : JValue → Bool) (o : Option JValue) : Bool :=
  match o with
  | none => true
  | some v => !v.isTruthy || (match v with | .arr xs => xs.all p | _ => false)

def isObjJ : JValue → Bool
  | .obj _ => true
  | _ => false

def planItemOK (x : JValue) : Bool :=
  !x.isTruthy ||
  (match x with
   | .obj p => strOrMissing (jLookup p "step") && truthyImpStr (jLookup p "status")
   | _ => false)

def funcCallOK (kvs : List (String × JValue)) : Bool :=
  strOrMissing (jLookup kvs "name") &&
  (if ((jLookup kvs "name").getD .null).eqStr "update_plan" then
     (match parse_json_string_maybe (jLookup kvs "arguments") with
      | (some (.obj akvs), true) =>
          truthyImpStr (jLookup akvs "explanation") && falsyOrArrAll planItemOK (jLookup akvs "plan")
      | _ => true)
   else true)

def dispatchOK (kvs : List (String × JValue)) : Bool :=
  match jLookup kvs "type" with
  | some (.str t) =>
      if t = "reasoning" then falsyOrArrAll summaryPartOK (jLookup kvs "summary")
      else if t = "message" then falsyOrArrAll isObjJ (jLookup kvs "content")
      else if t = "function_call" then funcCallOK kvs
      else true
  | _ => true

/-- A well-formed entry: a mapping whose header fields and typed payload
fields have the shapes the renderers consume without an exception. -/
def entryOK : JValue → Bool
  | .obj kvs => headerOK kvs && dispatchOK kvs
  | _ => false

/-- A line is harmless under wire mode `mode`: blank, not JSON, or JSON
that unwraps to a well-formed entry. -/
def lineOKb (mode : Bool) (rawLine : String) : Bool :=
  let line := pyStrip rawLine
  if line = "" then true
  else
    match jsonParse line with
    | none => true
    | some v =>
        match unwrapEntry mode v with
        | .ok pr => entryOK pr.2
        | .error _ => false

/-- The header renderer displays nothing from this mapping: `id` and
`timestamp` falsy or absent, `git` falsy or absent. -/
def metaHeaderEmpty (m : JValue) : Bool :=
  match m with
  | .obj kvs =>
      !((jLookup kvs "id").getD .null).isTruthy &&
      !((jLookup kvs "timestamp").getD .null).isTruthy &&
      !((jLookup kvs "git").getD .null).isTruthy
  | _ => false

/-- A summary part that contributes nothing: a mapping whose `type` is not
`"summary_text"`. -/
def nonSummaryText (x : JValue) : Bool :=
  match x with
  | .obj p => !((jLookup p "type").getD .null).eqStr "summary_text"
  | _ => false

/-! # Theorems -/

/-! ## Generic helpers -/

theorem exceptBind_ok {α β : Type} {a : Except PyErr α} {f : α → Except PyErr β} {b : β}
    (h : a >>= f = .ok b) : ∃ x, a = .ok x ∧ f x = .ok b := by
  cases a with
  | error e => simp [Bind.bind, Except.bind] at h
  | ok x => exact ⟨x, rfl, by simpa [Bind.bind, Except.bind] using h⟩

theorem isPrefixOf_append_false_of_mismatch (l t v : List Char) (i : Nat)
    (h1 : i < l.length) (h2 : i < t.length) (hne : l[i] ≠ t[i]) :
    l.isPrefixOf (t ++ v) = false := by
  by_contra hc
  rw [Bool.not_eq_false, List.isPrefixOf_iff_prefix] at hc
  have hlen : i < (t ++ v).length := by simp; omega
  have hx : l[i] = (t ++ v)[i] := hc.getElem h1
  rw [List.getElem_append_left h2] at hx
  exact hne hx

theorem isPrefixOf_append_of_isPrefixOf (l t v : List Char) (h : l.isPrefixOf t = true) :
    l.isPrefixOf (t ++ v) = true := by
  rw [List.isPrefixOf_iff_prefix] at *
  exact h.trans (List.prefix_append t v)

/-! ## Block classification: only `render_session_header` emits a
session-header block -/

theorem reasoningHtml_not_hdr (ts ch : String) : isHeaderBlockB (reasoningHtml ts ch) = false := by
  unfold reasoningHtml isHeaderBlockB
  simp only [String.data_append, List.append_assoc]
  exact isPrefixOf_append_false_of_mismatch _ _ _ 17 (by decide) (by decide) (by decide)

theorem messageHtml_not_hdr (c l ts tx : String) :
    isHeaderBlockB (messageHtml c l ts tx) = false := by
  unfold messageHtml isHeaderBlockB
  simp only [String.data_append, List.append_assoc]
  exact isPrefixOf_append_false_of_mismatch _ _ _ 17 (by decide) (by decide) (by decide)

theorem planHtml_not_hdr (ts ex it : String) : isHeaderBlockB (planHtml ts ex it) = false := by
  unfold planHtml isHeaderBlockB
  simp only [String.data_append, List.append_assoc]
  exact isPrefixOf_append_false_of_mismatch _ _ _ 17 (by decide) (by decide) (by decide)

theorem applyPatchHtml_not_hdr (ts rb pt : String) :
    isHeaderBlockB (applyPatchHtml ts rb pt) = false := by
  unfold applyPatchHtml isHeaderBlockB
  simp only [String.data_append, List.append_assoc]
  exact isPrefixOf_append_false_of_mismatch _ _ _ 17 (by decide) (by decide) (by decide)

theorem funcCallHtml_not_hdr (n ts b : String) : isHeaderBlockB (funcCallHtml n ts b) = false := by
  unfold funcCallHtml isHeaderBlockB
  simp only [String.data_append, List.append_assoc]
  exact isPrefixOf_append_false_of_mismatch _ _ _ 17 (by decide) (by decide) (by decide)

theorem funcOutputHtml_not_hdr (lg : Bool) (ts b : String) :
    isHeaderBlockB (funcOutputHtml lg ts b) = false := by
  unfold funcOutputHtml isHeaderBlockB
  simp only [String.data_append, List.append_assoc]
  exact isPrefixOf_append_false_of_mismatch _ _ _ 17 (by decide) (by decide) (by decide)

theorem unparsedLineBlock_not_hdr (l : String) : isHeaderBlockB (unparsedLineBlock l) = false := by
  unfold unparsedLineBlock isHeaderBlockB
  simp only [String.data_append, List.append_assoc]
  exact isPrefixOf_append_false_of_mismatch _ _ _ 0 (by decide) (by decide) (by decide)

theorem fallbackBlock_not_hdr (t : Option JValue) (e : JValue) :
    isHeaderBlockB (fallbackBlock t e) = false := by
  unfold fallbackBlock isHeaderBlockB
  simp only [String.data_append, List.append_assoc]
  exact isPrefixOf_append_false_of_mismatch _ _ _ 0 (by decide) (by decide) (by decide)

theorem empty_not_hdr : isHeaderBlockB "" = false := by decide

theorem sessionHtml_is_hdr (ts pa pj : String) : isHeaderBlockB (sessionHtml ts pa pj) = true := by
  unfold sessionHtml isHeaderBlockB
  simp only [String.data_append, List.append_assoc]
  exact isPrefixOf_append_of_isPrefixOf _ _ _ (by decide)

/-! ## Shapes of renderer outputs -/

theorem render_reasoning_ok_shape {entry : JValue} {ts s : String}
    (h : render_reasoning entry ts = .ok s) : s = "" ∨ ∃ ch, s = reasoningHtml ts ch := by
  unfold render_reasoning at h
  obtain ⟨sv, hsv, h⟩ := exceptBind_ok h
  obtain ⟨parts, hp, h⟩ := exceptBind_ok h
  obtain ⟨raw, hr, h⟩ := exceptBind_ok h
  split at h
  · left
    simpa [pure, Except.pure] using h.symm
  · obtain ⟨j, hj, h⟩ := exceptBind_ok h
    right
    exact ⟨_, by simpa [pure, Except.pure] using h.symm⟩

theorem render_message_ok_shape {entry : JValue} {ts s : String}
    (h : render_message entry ts = .ok s) : ∃ c l tx, s = messageHtml c l ts tx := by
  unfold render_message at h
  obtain ⟨role, hrole, h⟩ := exceptBind_ok h
  obtain ⟨cv, hcv, h⟩ := exceptBind_ok h
  obtain ⟨parts, hp, h⟩ := exceptBind_ok h
  obtain ⟨texts, ht, h⟩ := exceptBind_ok h
  exact ⟨_, _, _, by simpa [pure, Except.pure] using h.symm⟩

theorem render_plan_update_ok_shape {a : JValue} {ts s : String}
    (h : render_plan_update a ts = .ok s) : ∃ ex it, s = planHtml ts ex it := by
  unfold render_plan_update at h
  obtain ⟨e1, he1, h⟩ := exceptBind_ok h
  obtain ⟨e2, he2, h⟩ := exceptBind_ok h
  obtain ⟨e3, he3, h⟩ := exceptBind_ok h
  obtain ⟨e4, he4, h⟩ := exceptBind_ok h
  obtain ⟨e5, he5, h⟩ := exceptBind_ok h
  exact ⟨_, _, by simpa using h.symm⟩

theorem render_function_call_ok_shape {entry : JValue} {ts s : String}
    (h : render_function_call entry ts = .ok s) :
    (∃ ex it, s = planHtml ts ex it) ∨ (∃ rb pt, s = applyPatchHtml ts rb pt) ∨
    (∃ n b, s = funcCallHtml n ts b) := by
  unfold render_function_call at h
  obtain ⟨name, hn, h⟩ := exceptBind_ok h
  obtain ⟨ar, ha, h⟩ := exceptBind_ok h
  dsimp only at h
  split at h
  · exact .inl (render_plan_update_ok_shape h)
  · split at h
    · exact .inr (.inl ⟨_, _, (Except.ok.inj h).symm⟩)
    · obtain ⟨nh, hnh, h⟩ := exceptBind_ok h
      exact .inr (.inr ⟨_, _, (Except.ok.inj h).symm⟩)

theorem render_function_output_ok_shape {env : String → Option String} {entry : JValue}
    {ts s : String} (h : render_function_output env entry ts = .ok s) :
    s = "" ∨ ∃ lg b, s = funcOutputHtml lg ts b := by
  unfold render_function_output at h
  obtain ⟨body, hb, h⟩ := exceptBind_ok h
  split at h
  · left
    simpa [pure, Except.pure] using h.symm
  · right
    exact ⟨_, _, by simpa [pure, Except.pure] using h.symm⟩

theorem render_session_header_ok_shape {meta : JValue} {pa ts s : String}
    (h : render_session_header meta pa ts = .ok s) :
    s = "" ∨ ∃ ep pj, s = sessionHtml ts ep pj := by
  unfold render_session_header at h
  obtain ⟨e1, he1, h⟩ := exceptBind_ok h
  obtain ⟨e2, he2, h⟩ := exceptBind_ok h
  obtain ⟨e3, he3, h⟩ := exceptBind_ok h
  obtain ⟨e4, he4, h⟩ := exceptBind_ok h
  obtain ⟨e5, he5, h⟩ := exceptBind_ok h
  obtain ⟨e6, he6, h⟩ := exceptBind_ok h
  dsimp only at h
  split at h
  · left
    simpa using h.symm
  · right
    exact ⟨_, _, by simpa using h.symm⟩

/-- On success, `render_session_header` returns its template exactly when
some displayable part exists, and `""` otherwise; both are captured by the
block classifier. -/
theorem render_session_header_hdr_or_empty {meta : JValue} {pa ts s : String}
    (h : render_session_header meta pa ts = .ok s) :
    s = "" ∨ isHeaderBlockB s = true := by
  rcases render_session_header_ok_shape h with h1 | ⟨ep, pj, h1⟩
  · exact .inl h1
  · subst h1
    exact .inr (sessionHtml_is_hdr ts ep pj)

/-- Any block produced by the type dispatch is not a session-header block. -/
theorem renderByType_not_hdr {env : String → Option String} {entry : JValue}
    {ts b : String} {typ : Option JValue} (h : renderByType env entry ts typ = .ok b) :
    isHeaderBlockB b = false := by
  unfold renderByType at h
  split at h
  · rcases render_reasoning_ok_shape h with h1 | ⟨ch, h1⟩ <;> subst h1
    · exact empty_not_hdr
    · exact reasoningHtml_not_hdr ts ch
  · split at h
    · obtain ⟨c, l, tx, h1⟩ := render_message_ok_shape h
      subst h1
      exact messageHtml_not_hdr c l ts tx
    · split at h
      · rcases render_function_call_ok_shape h with ⟨ex, it, h1⟩ | ⟨rb, pt, h1⟩ | ⟨n, bo, h1⟩ <;>
          subst h1
        · exact planHtml_not_hdr ts ex it
        · exact applyPatchHtml_not_hdr ts rb pt
        · exact funcCallHtml_not_hdr n ts bo
      · split at h
        · rcases render_function_output_ok_shape h with h1 | ⟨lg, bo, h1⟩ <;> subst h1
          · exact empty_not_hdr
          · exact funcOutputHtml_not_hdr lg ts bo
        · replace h : fallbackBlock typ entry = b := by simpa using h
          subst h
          exact fallbackBlock_not_hdr typ entry

/-- The type dispatch: mode and header flag unchanged; at most one non
session-header block appended. -/
theorem dispatchEntry_ok {env : String → Option String} {entry : JValue} {ts : String}
    {st st' : LoopState} (h : dispatchEntry env entry ts st = .ok st') :
    st'.wrappedMode = st.wrappedMode ∧ st'.headerDone = st.headerDone ∧
    (st' = st ∨ ∃ b, st'.blocks = st.blocks ++ [b] ∧ isHeaderBlockB b = false) := by
  unfold dispatchEntry at h
  obtain ⟨rt, hrt, h⟩ := exceptBind_ok h
  split at h
  · replace h : st = st' := by simpa using h
    subst h
    exact ⟨rfl, rfl, .inl rfl⟩
  · obtain ⟨typ, htyp, h⟩ := exceptBind_ok h
    obtain ⟨b, hb, h⟩ := exceptBind_ok h
    replace h : LoopState.mk (st.blocks ++ [b]) st.headerDone st.wrappedMode = st' := by
      simpa using h
    subst h
    exact ⟨rfl, rfl, .inr ⟨b, rfl, renderByType_not_hdr hb⟩⟩

/-! ## Case analysis of one loop iteration -/

theorem processParsed_cases {env : String → Option String} {p : String} {st1 : LoopState}
    {ts : String} {entry : JValue} {st' : LoopState}
    (h : processParsed env p st1 ts entry = .ok st') :
    (∃ hdr, st1.headerDone = false ∧ render_session_header entry p ts = .ok hdr ∧
        st' = { st1 with blocks := st1.blocks ++ [hdr], headerDone := true }) ∨
    dispatchEntry env entry ts st1 = .ok st' := by
  unfold processParsed at h
  split at h
  · rename_i hdone
    obtain ⟨flag, hflag, h⟩ := exceptBind_ok h
    split at h
    · obtain ⟨hdr, hhdr, h⟩ := exceptBind_ok h
      replace h : LoopState.mk (st1.blocks ++ [hdr]) true st1.wrappedMode = st' := by
        simpa using h
      exact .inl ⟨hdr, by simpa using hdone, hhdr, h.symm⟩
    · exact .inr h
  · exact .inr h

theorem processLine_cases {env : String → Option String} {p : String} {st : LoopState}
    {line : String} {st' : LoopState} (h : processLine env p st line = .ok st') :
    (pyStrip line = "" ∧ st' = st) ∨
    (pyStrip line ≠ "" ∧ jsonParse (pyStrip line) = none ∧
        st' = { st with blocks := st.blocks ++ [unparsedLineBlock (pyStrip line)] }) ∨
    (∃ v pr, pyStrip line ≠ "" ∧ jsonParse (pyStrip line) = some v ∧
        unwrapEntry (st.wrappedMode.getD (isWrappedVal v)) v = .ok pr ∧
        processParsed env p { st with wrappedMode := some (st.wrappedMode.getD (isWrappedVal v)) }
          pr.1 pr.2 = .ok st') := by
  unfold processLine at h
  dsimp only at h
  split at h
  · exact .inl ⟨by assumption, (Except.ok.inj h).symm⟩
  · rename_i hne
    split at h
    · exact .inr (.inl ⟨hne, by assumption, (Except.ok.inj h).symm⟩)
    · rename_i v hv
      obtain ⟨pr, hpr, h⟩ := exceptBind_ok h
      exact .inr (.inr ⟨v, pr, hne, hv, hpr, h⟩)

/-! ## Wire-format mode: set once, never re-evaluated -/

theorem processParsed_mode {env : String → Option String} {p : String} {st1 : LoopState}
    {ts : String} {entry : JValue} {st' : LoopState}
    (h : processParsed env p st1 ts entry = .ok st') : st'.wrappedMode = st1.wrappedMode := by
  rcases processParsed_cases h with ⟨hdr, _, _, hst⟩ | hd
  · subst hst
    rfl
  · exact (dispatchEntry_ok hd).1

theorem processLine_mode {env : String → Option String} {p : String} {st : LoopState}
    {line : String} {st' : LoopState} (h : processLine env p st line = .ok st') :
    st'.wrappedMode =
      (match st.wrappedMode with
       | some b => some b
       | none => modeOfLines [line]) := by
  rcases processLine_cases h with ⟨he, hst⟩ | ⟨hne, hn, hst⟩ | ⟨v, pr, hne, hv, hun, hp⟩
  · subst hst
    have hm : modeOfLines [line] = none := by simp [modeOfLines, he]
    rw [hm]
    cases st'.wrappedMode <;> rfl
  · subst hst
    have hm : modeOfLines [line] = none := by simp [modeOfLines, hne, hn]
    rw [hm]
    cases st.wrappedMode <;> rfl
  · have hm := processParsed_mode hp
    have hml : modeOfLines [line] = some (isWrappedVal v) := by simp [modeOfLines, hne, hv]
    rw [hml, hm]
    cases st.wrappedMode <;> rfl

theorem modeOfLines_cons (l : String) (ls : List String) :
    modeOfLines (l :: ls) =
      (match modeOfLines [l] with
       | some m => some m
       | none => modeOfLines ls) := by
  simp only [modeOfLines]
  split
  · rfl
  · cases jsonParse (pyStrip l) <;> rfl

theorem foldlM_mode {env : String → Option String} {p : String} :
    ∀ (lines : List String) (st0 st : LoopState),
      lines.foldlM (processLine env p) st0 = .ok st →
      st.wrappedMode =
        (match st0.wrappedMode with
         | some b => some b
         | none => modeOfLines lines)
  | [], st0, st => by
      intro h
      have h2 : (Except.ok st0 : Except PyErr LoopState) = .ok st := h
      replace h := Except.ok.inj h2
      subst h
      simp only [modeOfLines]
      cases st0.wrappedMode <;> rfl
  | l :: ls, st0, st => by
      intro h
      rw [List.foldlM_cons] at h
      obtain ⟨st1, h1, h⟩ := exceptBind_ok h
      have hm1 := processLine_mode h1
      have hms := foldlM_mode ls st1 st h
      rw [modeOfLines_cons, hms, hm1]
      cases hsw : st0.wrappedMode
      · cases modeOfLines [l] <;> rfl
      · rfl

/-- C2: the wire-format mode is decided exactly once, from the first
successfully JSON-parsed line — wrapped iff that value is a mapping with
both a `timestamp` and a `payload` key (`isWrappedVal`) — and once the
mode is set every later line leaves it unchanged. -/
theorem claim_c2_wire_mode_decided_once :
    (∀ (env : String → Option String) (p : String) (lines : List String) (st : LoopState),
        render_jsonl_blocks env p lines = .ok st → st.wrappedMode = modeOfLines lines) ∧
    (∀ (env : String → Option String) (p : String) (st : LoopState) (line : String)
        (st' : LoopState) (b : Bool), st.wrappedMode = some b →
        processLine env p st line = .ok st' → st'.wrappedMode = some b) := by
  constructor
  · intro env p lines st h
    have := @foldlM_mode env p lines initLoopState st h
    simpa [initLoopState] using this
  · intro env p st line st' b hb h
    rw [processLine_mode h, hb]

/-- C6: a non-blank line that fails JSON decoding appends exactly one
`Unparsed Line` block — the stripped line text transformed only by
`esc` — raises nothing, and processing continues with the state
otherwise unchanged. -/
theorem claim_c6_unparsed_line (env : String → Option String) (p : String)
    (st : LoopState) (line : String) (hne : pyStrip line ≠ "")
    (hfail : jsonParse (pyStrip line) = none) :
    processLine env p st line =
      .ok { st with blocks := st.blocks ++ [unparsedLineBlock (pyStrip line)] } ∧
    unparsedLineBlock (pyStrip line) =
      "<div class=\x27block func-output\x27><div class=\x27label\x27>Unparsed Line</div><pre class=\x27code\x27>" ++
        esc (pyStrip line) ++ "</pre></div>" := by
  constructor
  · unfold processLine
    dsimp only
    rw [if_neg hne, hfail]
  · rfl

/-! ## Session-header accounting -/

theorem countHdr_append_one (bs : List String) (b : String) :
    countHdr (bs ++ [b]) = countHdr bs + (if isHeaderBlockB b then 1 else 0) := by
  unfold countHdr
  rw [List.countP_append]
  cases hb : isHeaderBlockB b <;> simp [List.countP, List.countP.go, hb]

theorem countHdr_append_nonhdr {b : String} (bs : List String) (hb : isHeaderBlockB b = false) :
    countHdr (bs ++ [b]) = countHdr bs := by
  rw [countHdr_append_one, hb]
  simp

/-- Per-step preservation of `countHdr st.blocks ≤ (if headerDone then 1 else 0)`. -/
theorem processLine_hdr_inv {env : String → Option String} {p : String} {st : LoopState}
    {line : String} {st' : LoopState} (h : processLine env p st line = .ok st')
    (hinv : countHdr st.blocks ≤ (if st.headerDone then 1 else 0)) :
    countHdr st'.blocks ≤ (if st'.headerDone then 1 else 0) := by
  rcases processLine_cases h with ⟨he, hst⟩ | ⟨hne, hn, hst⟩ | ⟨v, pr, hne, hv, hun, hp⟩
  · subst hst
    exact hinv
  · subst hst
    show countHdr (st.blocks ++ [unparsedLineBlock (pyStrip line)]) ≤
      (if st.headerDone then 1 else 0)
    rw [countHdr_append_nonhdr _ (unparsedLineBlock_not_hdr _)]
    exact hinv
  · rcases processParsed_cases hp with ⟨hdr, hdone, hrend, hst⟩ | hd
    · subst hst
      dsimp only at hdone
      rw [hdone] at hinv
      have hcnt : countHdr st.blocks = 0 := by simpa using hinv
      rcases render_session_header_hdr_or_empty hrend with h1 | h1
      · subst h1
        simp [countHdr_append_nonhdr _ empty_not_hdr, hcnt]
      · simp [countHdr_append_one, h1, hcnt]
    · obtain ⟨_, hdone, hbl⟩ := dispatchEntry_ok hd
      dsimp only at hdone
      rcases hbl with hst | ⟨b, hbl, hb⟩
      · rw [hst]
        simpa [hdone] using hinv
      · rw [hdone]
        dsimp only at hbl
        rw [hbl, countHdr_append_nonhdr _ hb]
        exact hinv

theorem foldlM_hdr_inv {env : String → Option String} {p : String} :
    ∀ (lines : List String) (st0 st : LoopState),
      lines.foldlM (processLine env p) st0 = .ok st →
      countHdr st0.blocks ≤ (if st0.headerDone then 1 else 0) →
      countHdr st.blocks ≤ (if st.headerDone then 1 else 0)
  | [], st0, st => by
      intro h hinv
      have h2 : (Except.ok st0 : Except PyErr LoopState) = .ok st := h
      rw [← Except.ok.inj h2]
      exact hinv
  | l :: ls, st0, st => by
      intro h hinv
      rw [List.foldlM_cons] at h
      obtain ⟨st1, h1, h⟩ := exceptBind_ok h
      exact foldlM_hdr_inv ls st1 st h (processLine_hdr_inv h1 hinv)

/-- Once the header is done, a step never adds a header block and keeps the
flag set. -/
theorem processLine_after_hdr {env : String → Option String} {p : String} {st : LoopState}
    {line : String} {st' : LoopState} (h : processLine env p st line = .ok st')
    (hdone : st.headerDone = true) :
    st'.headerDone = true ∧ countHdr st'.blocks = countHdr st.blocks := by
  rcases processLine_cases h with ⟨he, hst⟩ | ⟨hne, hn, hst⟩ | ⟨v, pr, hne, hv, hun, hp⟩
  · subst hst
    exact ⟨hdone, rfl⟩
  · subst hst
    exact ⟨hdone, countHdr_append_nonhdr _ (unparsedLineBlock_not_hdr _)⟩
  · rcases processParsed_cases hp with ⟨hdr, hdone1, hrend, hst⟩ | hd
    · dsimp only at hdone1
      rw [hdone] at hdone1
      exact absurd hdone1 (by simp)
    · obtain ⟨_, hdone', hbl⟩ := dispatchEntry_ok hd
      dsimp only at hdone'
      rcases hbl with hst | ⟨b, hbl, hb⟩
      · rw [hst]
        exact ⟨hdone, rfl⟩
      · simp only at hbl
        rw [hdone', hbl, countHdr_append_nonhdr _ hb]
        exact ⟨hdone, rfl⟩

theorem foldlM_after_hdr {env : String → Option String} {p : String} :
    ∀ (lines : List String) (st0 st : LoopState),
      lines.foldlM (processLine env p) st0 = .ok st → st0.headerDone = true →
      st.headerDone = true ∧ countHdr st.blocks = countHdr st0.blocks
  | [], st0, st => by
      intro h hdone
      have h2 : (Except.ok st0 : Except PyErr LoopState) = .ok st := h
      rw [← Except.ok.inj h2]
      exact ⟨hdone, rfl⟩
  | l :: ls, st0, st => by
      intro h hdone
      rw [List.foldlM_cons] at h
      obtain ⟨st1, h1, h⟩ := exceptBind_ok h
      obtain ⟨hd1, hc1⟩ := processLine_after_hdr h1 hdone
      obtain ⟨hd2, hc2⟩ := foldlM_after_hdr ls st1 st h hd1
      exact ⟨hd2, hc2.trans hc1⟩

/-- C8: every run that completes contains at most one session-header
block, and the header-triggering line contributes exactly the header
block (possibly empty) and nothing else. -/
theorem claim_c8_single_session_header :
    (∀ (env : String → Option String) (p : String) (lines : List String) (st : LoopState),
        render_jsonl_blocks env p lines = .ok st → countHdr st.blocks ≤ 1) ∧
    (∀ (env : String → Option String) (p : String) (st : LoopState) (line : String)
        (st' : LoopState), st.headerDone = false → processLine env p st line = .ok st' →
        st'.headerDone = true →
        ∃ hdr, st'.blocks = st.blocks ++ [hdr] ∧ (hdr = "" ∨ isHeaderBlockB hdr = true)) := by
  constructor
  · intro env p lines st h
    have := @foldlM_hdr_inv env p lines initLoopState st h
      (by simp [initLoopState, countHdr])
    split at this <;> omega
  · intro env p st line st' hdone h htrig
    rcases processLine_cases h with ⟨he, hst⟩ | ⟨hne, hn, hst⟩ | ⟨v, pr, hne, hv, hun, hp⟩
    · subst hst
      rw [hdone] at htrig
      exact absurd htrig (by simp)
    · subst hst
      dsimp only at htrig
      rw [hdone] at htrig
      exact absurd htrig (by simp)
    · rcases processParsed_cases hp with ⟨hdr, hdone1, hrend, hst⟩ | hd
      · subst hst
        exact ⟨hdr, by simp, render_session_header_hdr_or_empty hrend⟩
      · obtain ⟨_, hdone', _⟩ := dispatchEntry_ok hd
        dsimp only at hdone'
        rw [htrig] at hdone'
        rw [hdone] at hdone'
        exact absurd hdone' (by simp)

/-! ## C10: an empty header still consumes the one header slot -/

theorem headerPart_falsy {v : JValue} {pre post : String} (hv : v.isTruthy = false) :
    headerPart v pre post = .ok [] := by
  unfold headerPart
  rw [hv]
  rfl

theorem ok_bind {α β : Type} (a : α) (f : α → Except PyErr β) :
    (Except.ok a >>= f) = f a := rfl

theorem gitParts_empty : gitParts (.obj []) = .ok [] := rfl

/-- C10: when the first header-indicating payload displays nothing (falsy
or absent `id`, `timestamp` and `git`), the header renders as the empty
string, yet once the header-done flag is set no later line ever adds a
session-header block — so none appears anywhere in the document. -/
theorem claim_c10_empty_header_suppresses_all :
    (∀ (meta : JValue) (p ts : String), metaHeaderEmpty meta = true →
        render_session_header meta p ts = .ok "") ∧
    (∀ (env : String → Option String) (p : String) (lines : List String)
        (st0 st : LoopState), st0.headerDone = true →
        lines.foldlM (processLine env p) st0 = .ok st →
        countHdr st.blocks = countHdr st0.blocks) := by
  constructor
  · intro meta p ts hm
    cases meta with
    | obj kvs =>
        simp only [metaHeaderEmpty, Bool.and_eq_true, Bool.not_eq_true'] at hm
        obtain ⟨⟨h1, h2⟩, h3⟩ := hm
        simp only [render_session_header, pyGet, ok_bind, headerPart_falsy h1,
          headerPart_falsy h2, h3, Bool.false_eq_true, if_false, gitParts_empty]
        rfl
    | null => simp [metaHeaderEmpty] at hm
    | bool b => simp [metaHeaderEmpty] at hm
    | num m s => simp [metaHeaderEmpty] at hm
    | special k => simp [metaHeaderEmpty] at hm
    | str s => simp [metaHeaderEmpty] at hm
    | arr xs => simp [metaHeaderEmpty] at hm
  · intro env p lines st0 st hdone h
    exact (foldlM_after_hdr lines st0 st h hdone).2

/-! ## C5 and C4: function-output suppression and collapsing -/

theorem funcOutputHtml_ne_empty (lg : Bool) (ts b : String) : funcOutputHtml lg ts b ≠ "" := by
  intro hc
  have h1 : ("\n".data).isPrefixOf (funcOutputHtml lg ts b).data = true := by
    unfold funcOutputHtml
    dsimp only
    simp only [String.data_append, List.append_assoc]
    exact isPrefixOf_append_of_isPrefixOf _ _ _ (by decide)
  rw [hc] at h1
  exact absurd h1 (by decide)

theorem render_function_output_eq {env : String → Option String} {entry : JValue}
    {ts body : String} (hb : extractOutputBody entry = .ok body) :
    render_function_output env entry ts =
      (if pyStrip body = "Plan updated" then .ok ""
       else .ok (funcOutputHtml (isLargeOutput env body) ts body)) := by
  unfold render_function_output
  rw [hb, ok_bind]
  split <;> rfl

/-- C5: a function-output whose extracted body strips to exactly
`"Plan updated"` renders to the empty string (no block in the document);
any other body yields exactly one non-empty block. -/
theorem claim_c5_plan_updated_suppressed (env : String → Option String) (entry : JValue)
    (ts body : String) (hb : extractOutputBody entry = .ok body) :
    (render_function_output env entry ts = .ok "" ↔ pyStrip body = "Plan updated") ∧
    (pyStrip body ≠ "Plan updated" →
      render_function_output env entry ts = .ok (funcOutputHtml (isLargeOutput env body) ts body) ∧
      funcOutputHtml (isLargeOutput env body) ts body ≠ "") := by
  have hr := @render_function_output_eq env _ ts _ hb
  constructor
  · rw [hr]
    split
    · simp_all
    · rename_i hne
      simp only [hne, iff_false]
      intro hc
      exact funcOutputHtml_ne_empty _ _ _ (Except.ok.inj hc)
  · intro hne
    rw [hr, if_neg hne]
    exact ⟨rfl, funcOutputHtml_ne_empty _ _ _⟩

/-- C4: a function-output body at or above the character threshold
(default 15000, from `COLLAPSE_OUTPUT_CHAR_THRESHOLD`) or the line
threshold (default 300, from `COLLAPSE_OUTPUT_LINE_THRESHOLD`) renders
with its collapsible container collapsed; below both, expanded. -/
theorem claim_c4_collapse_thresholds (env : String → Option String) (entry : JValue)
    (ts body : String) (hb : extractOutputBody entry = .ok body)
    (hplan : pyStrip body ≠ "Plan updated") :
    ((envThresh env "COLLAPSE_OUTPUT_CHAR_THRESHOLD" 15000 ≤ (body.length : Int) ∨
      envThresh env "COLLAPSE_OUTPUT_LINE_THRESHOLD" 300 ≤ (countNl body : Int) + 1) →
        render_function_output env entry ts = .ok (funcOutputHtml true ts body)) ∧
    (((body.length : Int) < envThresh env "COLLAPSE_OUTPUT_CHAR_THRESHOLD" 15000 ∧
      (countNl body : Int) + 1 < envThresh env "COLLAPSE_OUTPUT_LINE_THRESHOLD" 300) →
        render_function_output env entry ts = .ok (funcOutputHtml false ts body)) := by
  have hr0 := @render_function_output_eq env _ ts _ hb
  rw [if_neg hplan] at hr0
  have hr := hr0
  constructor
  · intro hcond
    have hl : isLargeOutput env body = true := by
      unfold isLargeOutput
      simp only [Bool.or_eq_true, decide_eq_true_eq]
      exact hcond
    rw [hr, hl]
  · intro hcond
    have hl : isLargeOutput env body = false := by
      unfold isLargeOutput
      simp only [Bool.or_eq_false_iff, decide_eq_false_iff_not, not_le]
      exact hcond
    rw [hr, hl]

/-! ## C9: reasoning without summary text renders nothing -/

theorem collectSummaryTexts_none :
    ∀ xs : List JValue, xs.all nonSummaryText = true → collectSummaryTexts xs = .ok []
  | [] => fun _ => rfl
  | x :: rest => fun h => by
      rw [List.all_cons, Bool.and_eq_true] at h
      obtain ⟨hx, hrest⟩ := h
      cases x with
      | obj p =>
          have hr := collectSummaryTexts_none rest hrest
          simp only [nonSummaryText, Bool.not_eq_true'] at hx
          simp [collectSummaryTexts, pyGet, ok_bind, hx, hr]
      | null => simp [nonSummaryText] at hx
      | bool b => simp [nonSummaryText] at hx
      | num m s => simp [nonSummaryText] at hx
      | special k => simp [nonSummaryText] at hx
      | str s => simp [nonSummaryText] at hx
      | arr ys => simp [nonSummaryText] at hx

/-- C9: a reasoning event whose `summary` is absent, falsy (in particular
the empty list), or a list all of whose entries are mappings with a type
other than `"summary_text"`, renders to the empty string. -/
theorem claim_c9_reasoning_empty (kvs : List (String × JValue)) (ts : String)
    (h : falsyOrArrAll nonSummaryText (jLookup kvs "summary") = true) :
    render_reasoning (.obj kvs) ts = .ok "" := by
  unfold render_reasoning
  show (pyGet (.obj kvs) "summary" >>= fun sv0 => _) = _
  rw [show pyGet (.obj kvs) "summary" = .ok (jLookup kvs "summary") from rfl, ok_bind]
  cases hsv : jLookup kvs "summary" with
  | none =>
      simp only [Option.getD_none]
      rfl
  | some v =>
      rw [hsv] at h
      simp only [falsyOrArrAll] at h
      rw [Bool.or_eq_true] at h
      rcases h with h | h
      · rw [Bool.not_eq_true'] at h
        simp only [Option.getD_some]
        rw [h]
        rfl
      · cases v with
        | arr ys =>
            simp only [Option.getD_some]
            have hcol := collectSummaryTexts_none ys h
            by_cases ht : (JValue.arr ys).isTruthy = true
            · rw [if_pos ht]
              simp only [pyIter, ok_bind, hcol]
              rfl
            · rw [if_neg ht]
              rfl
        | null => simp at h
        | bool b => simp at h
        | num m s => simp at h
        | special k => simp at h
        | str s => simp at h
        | obj p => simp at h

/-! ## C3: the apply-patch attribute round-trips -/

theorem char_toNat_lt (c : Char) : c.toNat < 1114112 := by
  have h := c.valid
  rcases h with h | h
  · exact Nat.lt_trans h (by norm_num)
  · exact h.2

theorem b64Val_b64Char : ∀ n < 64, b64Val (b64Char n) = some n := by decide

theorem b64Char_ne_eq : ∀ n < 64, ¬ b64Char n = '=' := by decide

theorem b64_roundtrip :
    ∀ bs : List Nat, (∀ b ∈ bs, b < 256) → b64DecodeChars (b64EncodeBytes bs) = some bs
  | [] => fun _ => rfl
  | [a] => fun hlt => by
      have ha : a < 256 := hlt a (by simp)
      have h1 := b64Val_b64Char (a / 4) (by omega)
      have h2 := b64Val_b64Char (a % 4 * 16) (by omega)
      simp only [b64EncodeBytes, b64DecodeChars, h1, h2, if_pos, and_self, reduceIte]
      congr 1
      rw [show a / 4 * 4 + a % 4 * 16 / 16 = a by omega]
  | [a, b] => fun hlt => by
      have ha : a < 256 := hlt a (by simp)
      have hb : b < 256 := hlt b (by simp)
      have h1 := b64Val_b64Char (a / 4) (by omega)
      have h2 := b64Val_b64Char (a % 4 * 16 + b / 16) (by omega)
      have h3 := b64Val_b64Char (b % 16 * 4) (by omega)
      have hne3 := b64Char_ne_eq (b % 16 * 4) (by omega)
      simp only [b64EncodeBytes, b64DecodeChars, h1, h2, h3, if_neg hne3, reduceIte]
      congr 1
      rw [show a / 4 * 4 + (a % 4 * 16 + b / 16) / 16 = a by omega,
        show (a % 4 * 16 + b / 16) % 16 * 16 + b % 16 * 4 / 4 = b by omega]
  | a :: b :: c :: rest => fun hlt => by
      have ha : a < 256 := hlt a (by simp)
      have hb : b < 256 := hlt b (by simp)
      have hc : c < 256 := hlt c (by simp)
      have h1 := b64Val_b64Char (a / 4) (by omega)
      have h2 := b64Val_b64Char (a % 4 * 16 + b / 16) (by omega)
      have h3 := b64Val_b64Char (b % 16 * 4 + c / 64) (by omega)
      have h4 := b64Val_b64Char (c % 64) (by omega)
      have hne3 := b64Char_ne_eq (b % 16 * 4 + c / 64) (by omega)
      have hne4 := b64Char_ne_eq (c % 64) (by omega)
      have ih := b64_roundtrip rest (fun x hx => hlt x (by simp [hx]))
      simp only [b64EncodeBytes, b64DecodeChars, h1, h2, h3, h4, if_neg hne3, if_neg hne4, ih,
        Option.map_some]
      congr 1
      rw [show a / 4 * 4 + (a % 4 * 16 + b / 16) / 16 = a by omega,
        show (a % 4 * 16 + b / 16) % 16 * 16 + (b % 16 * 4 + c / 64) / 4 = b by omega,
        show (b % 16 * 4 + c / 64) % 4 * 64 + c % 64 = c by omega]
      rfl

theorem utf8DecodeF_encChar (c : Char) (l : List Nat) (fuel : Nat) :
    utf8DecodeF (fuel + 1) (utf8Char c ++ l) = (utf8DecodeF fuel l).map (fun cs => c :: cs) := by
  have hv : c.toNat < 1114112 := char_toNat_lt c
  by_cases h1 : c.toNat < 0x80
  · rw [show utf8Char c ++ l = c.toNat :: l by unfold utf8Char; rw [if_pos h1]; rfl]
    show (match utf8Head c.toNat with
      | none => none
      | some p =>
          match utf8TakeCont p.1 p.2 l with
          | none => none
          | some q => (utf8DecodeF fuel q.2).map (fun cs => Char.ofNat q.1 :: cs)) = _
    rw [show utf8Head c.toNat = some (0, c.toNat) by unfold utf8Head; rw [if_pos h1]]
    show (utf8DecodeF fuel l).map (fun cs => Char.ofNat c.toNat :: cs) = _
    rw [Char.ofNat_toNat]
  · by_cases h2 : c.toNat < 0x800
    · rw [show utf8Char c ++ l = (0xc0 + c.toNat / 64) :: (0x80 + c.toNat % 64) :: l by
        unfold utf8Char; rw [if_neg h1, if_pos h2]; rfl]
      show (match utf8Head (0xc0 + c.toNat / 64) with
        | none => none
        | some p =>
            match utf8TakeCont p.1 p.2 ((0x80 + c.toNat % 64) :: l) with
            | none => none
            | some q => (utf8DecodeF fuel q.2).map (fun cs => Char.ofNat q.1 :: cs)) = _
      rw [show utf8Head (0xc0 + c.toNat / 64) = some (1, c.toNat / 64) by
        unfold utf8Head
        rw [if_neg (by omega), if_neg (by omega), if_pos (by omega)]
        congr 2
        omega]
      show (match utf8TakeCont 1 (c.toNat / 64) ((0x80 + c.toNat % 64) :: l) with
        | none => none
        | some q => (utf8DecodeF fuel q.2).map (fun cs => Char.ofNat q.1 :: cs)) = _
      rw [show utf8TakeCont 1 (c.toNat / 64) ((0x80 + c.toNat % 64) :: l) =
          some (c.toNat, l) by
        unfold utf8TakeCont
        rw [if_pos ⟨by omega, by omega⟩]
        unfold utf8TakeCont
        congr 2
        omega]
      show (utf8DecodeF fuel l).map (fun cs => Char.ofNat c.toNat :: cs) = _
      rw [Char.ofNat_toNat]
    · by_cases h3 : c.toNat < 0x10000
      · rw [show utf8Char c ++ l =
            (0xe0 + c.toNat / 4096) :: (0x80 + c.toNat / 64 % 64) ::
              (0x80 + c.toNat % 64) :: l by
          unfold utf8Char; rw [if_neg h1, if_neg h2, if_pos h3]; rfl]
        show (match utf8Head (0xe0 + c.toNat / 4096) with
          | none => none
          | some p =>
              match utf8TakeCont p.1 p.2
                  ((0x80 + c.toNat / 64 % 64) :: (0x80 + c.toNat % 64) :: l) with
              | none => none
              | some q => (utf8DecodeF fuel q.2).map (fun cs => Char.ofNat q.1 :: cs)) = _
        rw [show utf8Head (0xe0 + c.toNat / 4096) = some (2, c.toNat / 4096) by
          unfold utf8Head
          rw [if_neg (by omega), if_neg (by omega), if_neg (by omega), if_pos (by omega)]
          congr 2
          omega]
        show (match utf8TakeCont 2 (c.toNat / 4096)
                ((0x80 + c.toNat / 64 % 64) :: (0x80 + c.toNat % 64) :: l) with
          | none => none
          | some q => (utf8DecodeF fuel q.2).map (fun cs => Char.ofNat q.1 :: cs)) = _
        rw [show utf8TakeCont 2 (c.toNat / 4096)
              ((0x80 + c.toNat / 64 % 64) :: (0x80 + c.toNat % 64) :: l) =
            some (c.toNat, l) by
          unfold utf8TakeCont
          rw [if_pos ⟨by omega, by omega⟩]
          unfold utf8TakeCont
          rw [if_pos ⟨by omega, by omega⟩]
          unfold utf8TakeCont
          congr 2
          omega]
        show (utf8DecodeF fuel l).map (fun cs => Char.ofNat c.toNat :: cs) = _
        rw [Char.ofNat_toNat]
      · rw [show utf8Char c ++ l =
            (0xf0 + c.toNat / 262144) :: (0x80 + c.toNat / 4096 % 64) ::
              (0x80 + c.toNat / 64 % 64) :: (0x80 + c.toNat % 64) :: l by
          unfold utf8Char; rw [if_neg h1, if_neg h2, if_neg h3]; rfl]
        show (match utf8Head (0xf0 + c.toNat / 262144) with
          | none => none
          | some p =>
              match utf8TakeCont p.1 p.2
                  ((0x80 + c.toNat / 4096 % 64) :: (0x80 + c.toNat / 64 % 64) ::
                    (0x80 + c.toNat % 64) :: l) with
              | none => none
              | some q => (utf8DecodeF fuel q.2).map (fun cs => Char.ofNat q.1 :: cs)) = _
        rw [show utf8Head (0xf0 + c.toNat / 262144) = some (3, c.toNat / 262144) by
          unfold utf8Head
          rw [if_neg (by omega), if_neg (by omega), if_neg (by omega), if_neg (by omega),
            if_pos (by omega)]
          congr 2
          omega]
        show (match utf8TakeCont 3 (c.toNat / 262144)
                ((0x80 + c.toNat / 4096 % 64) :: (0x80 + c.toNat / 64 % 64) ::
                  (0x80 + c.toNat % 64) :: l) with
          | none => none
          | some q => (utf8DecodeF fuel q.2).map (fun cs => Char.ofNat q.1 :: cs)) = _
        rw [show utf8TakeCont 3 (c.toNat / 262144)
              ((0x80 + c.toNat / 4096 % 64) :: (0x80 + c.toNat / 64 % 64) ::
                (0x80 + c.toNat % 64) :: l) = some (c.toNat, l) by
          unfold utf8TakeCont
          rw [if_pos ⟨by omega, by omega⟩]
          unfold utf8TakeCont
          rw [if_pos ⟨by omega, by omega⟩]
          unfold utf8TakeCont
          rw [if_pos ⟨by omega, by omega⟩]
          unfold utf8TakeCont
          congr 2
          omega]
        show (utf8DecodeF fuel l).map (fun cs => Char.ofNat c.toNat :: cs) = _
        rw [Char.ofNat_toNat]

theorem utf8DecodeF_encode_list :
    ∀ (cs : List Char) (fuel : Nat), cs.length ≤ fuel →
      utf8DecodeF fuel ((cs.map utf8Char).flatten) = some cs
  | [], fuel => fun _ => by
      cases fuel <;> rfl
  | c :: cs, fuel => fun hf => by
      cases fuel with
      | zero => simp at hf
      | succ fuel =>
          rw [List.map_cons, List.flatten_cons, utf8DecodeF_encChar,
            utf8DecodeF_encode_list cs fuel (by simpa using hf)]
          rfl

theorem utf8Char_ne_nil (c : Char) : utf8Char c ≠ [] := by
  unfold utf8Char
  dsimp only
  split
  · simp
  · split
    · simp
    · split <;> simp

theorem length_le_flatten_utf8 :
    ∀ cs : List Char, cs.length ≤ ((cs.map utf8Char).flatten).length
  | [] => by simp
  | c :: cs => by
      rw [List.map_cons, List.flatten_cons, List.length_append, List.length_cons]
      have h1 : 1 ≤ (utf8Char c).length := by
        cases hc : utf8Char c with
        | nil => exact absurd hc (utf8Char_ne_nil c)
        | cons a l => simp
      have h2 := length_le_flatten_utf8 cs
      omega

theorem utf8Decode_encode_list (cs : List Char) :
    utf8Decode ((cs.map utf8Char).flatten) = some cs :=
  utf8DecodeF_encode_list cs _ (length_le_flatten_utf8 cs)

theorem utf8Char_lt (c : Char) : ∀ b ∈ utf8Char c, b < 256 := by
  have hv : c.toNat < 1114112 := char_toNat_lt c
  unfold utf8Char
  dsimp only
  split
  · intro b hb
    simp at hb
    omega
  · split
    · intro b hb
      simp at hb
      rcases hb with hb | hb <;> omega
    · split
      · intro b hb
        simp at hb
        rcases hb with hb | hb | hb <;> omega
      · intro b hb
        simp at hb
        rcases hb with hb | hb | hb | hb <;> omega

theorem utf8Encode_lt (s : String) : ∀ b ∈ utf8Encode s, b < 256 := by
  intro b hb
  unfold utf8Encode at hb
  rw [List.mem_flatten] at hb
  obtain ⟨l, hl, hb⟩ := hb
  rw [List.mem_map] at hl
  obtain ⟨c, _, hc⟩ := hl
  exact utf8Char_lt c b (hc ▸ hb)

theorem mem_b64EncodeBytes :
    ∀ (bs : List Nat) (c : Char), c ∈ b64EncodeBytes bs → (∃ n, c = b64Char n) ∨ c = '='
  | [], c => by simp [b64EncodeBytes]
  | [a], c => by
      simp only [b64EncodeBytes, List.mem_cons, List.not_mem_nil, or_false]
      rintro (h | h | h | h) <;> subst h
      · exact .inl ⟨_, rfl⟩
      · exact .inl ⟨_, rfl⟩
      · exact .inr rfl
      · exact .inr rfl
  | [a, b], c => by
      simp only [b64EncodeBytes, List.mem_cons, List.not_mem_nil, or_false]
      rintro (h | h | h | h) <;> subst h
      · exact .inl ⟨_, rfl⟩
      · exact .inl ⟨_, rfl⟩
      · exact .inl ⟨_, rfl⟩
      · exact .inr rfl
  | a :: b :: d :: rest, c => by
      simp only [b64EncodeBytes, List.mem_cons]
      rintro (h | h | h | h | h)
      · exact .inl ⟨_, h⟩
      · exact .inl ⟨_, h⟩
      · exact .inl ⟨_, h⟩
      · exact .inl ⟨_, h⟩
      · exact mem_b64EncodeBytes rest c h

theorem escChar_b64Char (n : Nat) : escChar (b64Char n) = [b64Char n] := by
  by_cases h : n < 64
  · revert h
    revert n
    decide
  · have : b64Char n = 'A' := by
      unfold b64Char
      apply List.getD_eq_default
      simp only [b64Alphabet]
      simp
      omega
    rw [this]
    rfl

theorem escChar_eqsign : escChar '=' = ['='] := rfl

theorem foldr_escChar_id :
    ∀ l : List Char, (∀ c ∈ l, escChar c = [c]) →
      l.foldr (fun c acc => escChar c ++ acc) [] = l
  | [] => fun _ => rfl
  | c :: rest => fun h => by
      rw [List.foldr_cons, h c (by simp), foldr_escChar_id rest (fun x hx => h x (by simp [hx]))]
      rfl

theorem esc_b64OfString (s : String) : esc (b64OfString s) = b64OfString s := by
  unfold esc b64OfString
  congr 1
  apply foldr_escChar_id
  intro c hc
  rcases mem_b64EncodeBytes _ c hc with ⟨n, hn⟩ | hn
  · rw [hn]
    exact escChar_b64Char n
  · rw [hn]
    rfl

theorem decodeRawB64Attr_b64OfString (s : String) : decodeRawB64Attr (b64OfString s) = some s := by
  unfold decodeRawB64Attr b64OfString
  rw [show (String.mk (b64EncodeBytes (utf8Encode s))).data = b64EncodeBytes (utf8Encode s)
      from rfl]
  rw [b64_roundtrip (utf8Encode s) (utf8Encode_lt s)]
  rw [show (Option.bind (some (utf8Encode s)) fun bytes => (utf8Decode bytes).map String.mk) =
      (utf8Decode (utf8Encode s)).map String.mk from rfl]
  unfold utf8Encode
  rw [utf8Decode_encode_list s.data]
  rfl

/-- C3: a function call whose decoded arguments carry
`command = ["apply_patch", P, ...]` renders the Apply Patch block whose
`data-raw-b64` attribute (`esc` applied, a no-op on base64 text)
base64-and-UTF-8 decodes back to exactly `P`. -/
theorem claim_c3_apply_patch_roundtrip (kvs akvs : List (String × JValue))
    (cmdRest : List JValue) (ts P : String)
    (hname : ((jLookup kvs "name").getD (.str "function")).eqStr "update_plan" = false)
    (hargs : jLookup kvs "arguments" = some (.obj akvs))
    (hcmd : jLookup akvs "command" = some (.arr (.str "apply_patch" :: .str P :: cmdRest))) :
    render_function_call (.obj kvs) ts =
      .ok (applyPatchHtml ts (esc (b64OfString P)) (esc P)) ∧
    esc (b64OfString P) = b64OfString P ∧
    decodeRawB64Attr (esc (b64OfString P)) = some P := by
  refine ⟨?_, esc_b64OfString P, ?_⟩
  · unfold render_function_call
    rw [show pyGet (JValue.obj kvs) "name" = .ok (jLookup kvs "name") from rfl, ok_bind]
    rw [show pyGet (JValue.obj kvs) "arguments" = .ok (jLookup kvs "arguments") from rfl, ok_bind]
    rw [hargs]
    dsimp only
    rw [if_neg (by simp [hname])]
    have hpatch : extract_patch_from_command
        ((jLookup akvs "command").getD JValue.null) = some P := by
      rw [hcmd]
      unfold extract_patch_from_command
      dsimp only [Option.getD_some]
      rw [if_pos ⟨by simp, rfl⟩]
      rfl
    simp only [parse_json_string_maybe, isObjB, Option.getD_some, and_self, reduceIte]
    rw [hpatch]
    rfl
  · rw [esc_b64OfString P]
    exact decodeRawB64Attr_b64OfString P

/-! ## C7: sanitization leaves no script-tag opening -/

theorem sanitizeGo_nil : sanitizeGo [] = [] := by
  rw [sanitizeGo]

theorem sanitizeGo_cons_not_lt {c : Char} (rest : List Char) (h : c ≠ '<') :
    sanitizeGo (c :: rest) = c :: sanitizeGo rest := by
  rw [sanitizeGo]
  simp [h]

theorem sanitizeGo_cons_lt_some {rest cons rem : List Char}
    (h : matchScriptTail rest = some (cons, rem)) :
    sanitizeGo ('<' :: rest) = '&' :: 'l' :: 't' :: ';' :: (cons ++ sanitizeGo rem) := by
  rw [sanitizeGo, if_pos rfl]
  split
  · rename_i heq
    rw [h] at heq
    obtain ⟨h1, h2⟩ := Prod.mk.inj (Option.some.inj heq)
    rw [← h1, ← h2]
  · rename_i heq
    rw [h] at heq
    cases heq

theorem sanitizeGo_cons_lt_none {rest : List Char} (h : matchScriptTail rest = none) :
    sanitizeGo ('<' :: rest) = '<' :: sanitizeGo rest := by
  rw [sanitizeGo, if_pos rfl]
  split
  · rename_i heq
    rw [h] at heq
    cases heq
  · rfl

theorem isReSpace_ne_lt {c : Char} (h : isReSpace c = true) : c ≠ '<' := by
  intro hc
  subst hc
  exact absurd h (by decide)

theorem isReWord_ne_lt {c : Char} (h : isReWord c = true) : c ≠ '<' := by
  intro hc
  subst hc
  exact absurd h (by decide)

theorem matchKwBd_cons_ne_lt :
    ∀ (ks l cons rem : List Char), (∀ k ∈ ks, k ≠ '<') →
      matchKwBd ks l = some (cons, rem) → ∀ c ∈ cons, c ≠ '<'
  | [], l, cons, rem => by
      intro _ h
      simp only [matchKwBd] at h
      split at h
      · obtain ⟨h1, h2⟩ := Prod.mk.inj (Option.some.inj h)
        subst h1
        simp
      · cases h
  | k :: ks, [], cons, rem => by
      intro _ h
      simp [matchKwBd] at h
  | k :: ks, c :: cs, cons, rem => by
      intro hks h
      simp only [matchKwBd] at h
      split at h
      · rename_i hlow
        cases hm : matchKwBd ks cs with
        | none => rw [hm] at h; simp at h
        | some p =>
            rw [hm] at h
            obtain ⟨h1, h2⟩ := Prod.mk.inj (Option.some.inj h)
            subst h1
            intro x hx
            rcases List.mem_cons.mp hx with hx | hx
            · subst hx
              intro hc
              subst hc
              have hk : k = '<' := by
                rw [← hlow]
                decide
              exact hks k (by simp) hk
            · exact matchKwBd_cons_ne_lt ks cs p.1 p.2 (fun x hx2 => hks x (by simp [hx2]))
                (by rw [hm]) x hx
      · simp at h

theorem matchAfterSlash_cons_ne_lt :
    ∀ (l cons rem : List Char), matchAfterSlash l = some (cons, rem) → ∀ c ∈ cons, c ≠ '<'
  | [], cons, rem => fun h => by
      exact matchKwBd_cons_ne_lt scriptKw [] cons rem (by decide) h
  | c :: cs, cons, rem => by
      simp only [matchAfterSlash]
      split
      · rename_i hsp
        cases hm : matchAfterSlash cs with
        | none => intro h; simp at h
        | some p =>
            intro h
            obtain ⟨h1, h2⟩ := Prod.mk.inj (Option.some.inj h)
            subst h1
            intro x hx
            rcases List.mem_cons.mp hx with hx | hx
            · subst hx
              exact isReSpace_ne_lt hsp
            · exact matchAfterSlash_cons_ne_lt cs p.1 p.2 (by rw [hm]) x hx
      · exact matchKwBd_cons_ne_lt scriptKw (c :: cs) cons rem (by decide)

theorem matchScriptTail_cons_ne_lt :
    ∀ (l cons rem : List Char), matchScriptTail l = some (cons, rem) → ∀ c ∈ cons, c ≠ '<'
  | [], cons, rem => fun h => by
      exact matchKwBd_cons_ne_lt scriptKw [] cons rem (by decide) h
  | c :: cs, cons, rem => by
      simp only [matchScriptTail]
      split
      · rename_i hsp
        cases hm : matchScriptTail cs with
        | none => intro h; simp at h
        | some p =>
            intro h
            obtain ⟨h1, h2⟩ := Prod.mk.inj (Option.some.inj h)
            subst h1
            intro x hx
            rcases List.mem_cons.mp hx with hx | hx
            · subst hx
              exact isReSpace_ne_lt hsp
            · exact matchScriptTail_cons_ne_lt cs p.1 p.2 (by rw [hm]) x hx
      · split
        · rename_i hsl
          cases hm : matchAfterSlash cs with
          | none => intro h; simp at h
          | some p =>
              intro h
              obtain ⟨h1, h2⟩ := Prod.mk.inj (Option.some.inj h)
              subst h1
              intro x hx
              rcases List.mem_cons.mp hx with hx | hx
              · subst hx
                subst hsl
                decide
              · exact matchAfterSlash_cons_ne_lt cs p.1 p.2 (by rw [hm]) x hx
        · exact matchKwBd_cons_ne_lt scriptKw (c :: cs) cons rem (by decide)

theorem matchKwBd_head_ne {k : Char} {ks : List Char} {x : Char} {l : List Char}
    (hx : x.toLower ≠ k) : matchKwBd (k :: ks) (x :: l) = none := by
  simp only [matchKwBd]
  rw [if_neg hx]

theorem matchKwBd_none_sanitize :
    ∀ (ks : List Char), (∀ k ∈ ks, k ≠ '<' ∧ k ≠ '&') →
      ∀ l, matchKwBd ks l = none → matchKwBd ks (sanitizeGo l) = none
  | [], _ => fun l h => by
      cases l with
      | nil => exact absurd h (by simp [matchKwBd, boundaryOk])
      | cons c cs =>
          simp only [matchKwBd] at h ⊢
          split at h
          · cases h
          · rename_i hbd
            simp only [boundaryOk, Bool.not_eq_true'] at hbd
            rw [Bool.not_eq_false] at hbd
            rw [sanitizeGo_cons_not_lt cs (isReWord_ne_lt hbd)]
            rw [if_neg (by simp [boundaryOk, hbd])]
  | k :: ks, hks => fun l h => by
      cases l with
      | nil => rw [sanitizeGo_nil]; exact h
      | cons c cs =>
          by_cases hc : c = '<'
          · subst hc
            cases hm : matchScriptTail cs with
            | some p =>
                rw [sanitizeGo_cons_lt_some (show matchScriptTail cs = some (p.1, p.2) by rw [hm])]
                exact matchKwBd_head_ne (by
                  intro hx
                  exact (hks k (by simp)).2 (by rw [← hx]; decide))
            | none =>
                rw [sanitizeGo_cons_lt_none hm]
                exact matchKwBd_head_ne (by
                  intro hx
                  exact (hks k (by simp)).1 (by rw [← hx]; decide))
          · rw [sanitizeGo_cons_not_lt cs hc]
            simp only [matchKwBd] at h ⊢
            split at h
            · rename_i hlow
              rw [if_pos hlow]
              cases hm : matchKwBd ks cs with
              | some p => rw [hm] at h; simp at h
              | none =>
                  rw [matchKwBd_none_sanitize ks (fun x hx => hks x (by simp [hx])) cs hm]
                  rfl
            · rename_i hlow
              rw [if_neg hlow]

theorem matchAfterSlash_none_sanitize :
    ∀ l, matchAfterSlash l = none → matchAfterSlash (sanitizeGo l) = none
  | [] => fun h => by rw [sanitizeGo_nil]; exact h
  | c :: cs => fun h => by
      by_cases hc : c = '<'
      · subst hc
        simp only [matchAfterSlash, show isReSpace '<' = false by decide] at h
        rw [if_neg Bool.false_ne_true] at h
        cases hm : matchScriptTail cs with
        | some p =>
            rw [sanitizeGo_cons_lt_some (show matchScriptTail cs = some (p.1, p.2) by rw [hm])]
            simp only [matchAfterSlash, show isReSpace '&' = false by decide]
            rw [if_neg Bool.false_ne_true]
            exact matchKwBd_head_ne (by decide)
        | none =>
            rw [sanitizeGo_cons_lt_none hm]
            simp only [matchAfterSlash, show isReSpace '<' = false by decide]
            rw [if_neg Bool.false_ne_true]
            exact matchKwBd_head_ne (by decide)
      · rw [sanitizeGo_cons_not_lt cs hc]
        simp only [matchAfterSlash] at h ⊢
        split at h
        · rename_i hsp
          rw [if_pos hsp]
          cases hm : matchAfterSlash cs with
          | some p => rw [hm] at h; simp at h
          | none =>
              rw [matchAfterSlash_none_sanitize cs hm]
              rfl
        · rename_i hsp
          rw [if_neg hsp]
          have h2 := matchKwBd_none_sanitize scriptKw (by decide) (c :: cs) h
          rw [sanitizeGo_cons_not_lt cs hc] at h2
          exact h2

theorem matchScriptTail_none_sanitize :
    ∀ l, matchScriptTail l = none → matchScriptTail (sanitizeGo l) = none
  | [] => fun h => by rw [sanitizeGo_nil]; exact h
  | c :: cs => fun h => by
      by_cases hc : c = '<'
      · subst hc
        cases hm : matchScriptTail cs with
        | some p =>
            rw [sanitizeGo_cons_lt_some (show matchScriptTail cs = some (p.1, p.2) by rw [hm])]
            simp only [matchScriptTail, show isReSpace '&' = false by decide]
            rw [if_neg Bool.false_ne_true, if_neg (by decide : ¬ ('&' = '/'))]
            exact matchKwBd_head_ne (by decide)
        | none =>
            rw [sanitizeGo_cons_lt_none hm]
            simp only [matchScriptTail, show isReSpace '<' = false by decide]
            rw [if_neg Bool.false_ne_true, if_neg (by decide : ¬ ('<' = '/'))]
            exact matchKwBd_head_ne (by decide)
      · rw [sanitizeGo_cons_not_lt cs hc]
        simp only [matchScriptTail] at h ⊢
        split at h
        · rename_i hsp
          rw [if_pos hsp]
          cases hm : matchScriptTail cs with
          | some p => rw [hm] at h; simp at h
          | none =>
              rw [matchScriptTail_none_sanitize cs hm]
              rfl
        · rename_i hsp
          rw [if_neg hsp]
          split at h
          · rename_i hsl
            rw [if_pos hsl]
            cases hm : matchAfterSlash cs with
            | some p => rw [hm] at h; simp at h
            | none =>
                rw [matchAfterSlash_none_sanitize cs hm]
                rfl
          · rename_i hsl
            rw [if_neg hsl]
            have h2 := matchKwBd_none_sanitize scriptKw (by decide) (c :: cs) h
            rw [sanitizeGo_cons_not_lt cs hc] at h2
            exact h2

theorem containsOpen_append_no_lt :
    ∀ (cons tail : List Char), (∀ c ∈ cons, c ≠ '<') →
      containsOpen (cons ++ tail) = containsOpen tail
  | [], tail => fun _ => rfl
  | c :: rest, tail => fun h => by
      simp only [List.cons_append, containsOpen, List.append_eq]
      rw [containsOpen_append_no_lt rest tail (fun x hx => h x (by simp [hx]))]
      have hc : (c = '<') = False := by
        simp [h c (by simp)]
      simp [hc]

theorem containsOpen_sanitizeGo_bounded :
    ∀ (n : Nat) (l : List Char), l.length ≤ n → containsOpen (sanitizeGo l) = false
  | _, [] => fun _ => by rw [sanitizeGo_nil]; rfl
  | 0, c :: rest => fun h => by simp at h
  | n + 1, c :: rest => fun hlen => by
      have hlen' : rest.length ≤ n := by
        simp only [List.length_cons] at hlen
        omega
      by_cases hc : c = '<'
      · subst hc
        cases hm : matchScriptTail rest with
        | some p =>
            rw [sanitizeGo_cons_lt_some (show matchScriptTail rest = some (p.1, p.2) by
              rw [hm])]
            simp only [containsOpen]
            rw [containsOpen_append_no_lt p.1 (sanitizeGo p.2)
              (matchScriptTail_cons_ne_lt rest p.1 p.2 (by rw [hm]))]
            have hrem : p.2.length ≤ n := by
              have hsplit := matchScriptTail_split rest p.1 p.2 (by rw [hm])
              have : p.2.length ≤ rest.length := by
                rw [hsplit]
                simp
              omega
            have hrt := containsOpen_sanitizeGo_bounded n p.2 hrem
            simp [hrt]
        | none =>
            rw [sanitizeGo_cons_lt_none hm]
            simp only [containsOpen]
            rw [matchScriptTail_none_sanitize rest hm]
            have hrt := containsOpen_sanitizeGo_bounded n rest hlen'
            simp [hrt]
      · rw [sanitizeGo_cons_not_lt rest hc]
        simp only [containsOpen]
        have hrt := containsOpen_sanitizeGo_bounded n rest hlen'
        simp [hrt, hc]

theorem containsOpen_sanitizeGo (l : List Char) : containsOpen (sanitizeGo l) = false :=
  containsOpen_sanitizeGo_bounded l.length l le_rfl

theorem sanitizeGo_id_of_no_open :
    ∀ l : List Char, containsOpen l = false → sanitizeGo l = l
  | [] => fun _ => sanitizeGo_nil
  | c :: rest => fun h => by
      simp only [containsOpen, Bool.or_eq_false_iff, Bool.and_eq_false_iff] at h
      obtain ⟨h1, h2⟩ := h
      by_cases hc : c = '<'
      · subst hc
        rcases h1 with h1 | h1
        · simp at h1
        · cases hm : matchScriptTail rest with
          | some p => rw [hm] at h1; simp at h1
          | none =>
              rw [sanitizeGo_cons_lt_none hm, sanitizeGo_id_of_no_open rest h2]
      · rw [sanitizeGo_cons_not_lt rest hc, sanitizeGo_id_of_no_open rest h2]

/-- C7: `sanitize_html` rewrites each `<\s*/?\s*script\b` occurrence by
escaping only its leading `<` (that is `sanitizeGo`), so the sanitized
output contains no script-tag opening; and input without any such
occurrence is returned unchanged. -/
theorem claim_c7_sanitize_no_script_open :
    (∀ s : String, containsOpen (sanitize_html s).data = false) ∧
    (∀ s : String, containsOpen s.data = false → sanitize_html s = s) := by
  constructor
  · intro s
    unfold sanitize_html
    split
    · rename_i hs
      subst hs
      rfl
    · exact containsOpen_sanitizeGo s.data
  · intro s h
    unfold sanitize_html
    split
    · rfl
    · rw [sanitizeGo_id_of_no_open s.data h]

/-! ## C1: well-formed lines are processed without an exception -/

/-- The constant literals `json.loads` accepts beyond strict JSON also
parse in the model, so a `NaN` line is not a decode failure: it reaches
`"timestamp" in entry` (direct mode, `TypeError`) or `(raw_obj or
\x7b\x7d).get(...)` (wrapped mode, `AttributeError`) and raises. -/
theorem nan_line_raises :
    jsonParse "NaN" = some (.special .nan) ∧
    (∀ b, lineOKb b "NaN" = false) ∧
    render_jsonl_blocks (fun _ => none) "log.jsonl" ["NaN"] = .error .typeError :=
  ⟨rfl, by decide, rfl⟩

/-! ## Concrete witnesses -/

theorem claim_c2_witness :
    (render_jsonl_blocks (fun _ => none) "log.jsonl" ["\x7b\"instructions\": \"hi\"\x7d"] =
        .ok ⟨[""], true, some false⟩ ∧
     (⟨[""], true, some false⟩ : LoopState).wrappedMode =
        modeOfLines ["\x7b\"instructions\": \"hi\"\x7d"]) ∧
    ((⟨[], false, some true⟩ : LoopState).wrappedMode = some true ∧
     processLine (fun _ => none) "log.jsonl" ⟨[], false, some true⟩ " " =
        .ok ⟨[], false, some true⟩ ∧
     (⟨[], false, some true⟩ : LoopState).wrappedMode = some true) :=
  ⟨⟨rfl, claim_c2_wire_mode_decided_once.1 (fun _ => none) "log.jsonl"
      ["\x7b\"instructions\": \"hi\"\x7d"] ⟨[""], true, some false⟩ rfl⟩,
   ⟨rfl, rfl, claim_c2_wire_mode_decided_once.2 (fun _ => none) "log.jsonl"
      ⟨[], false, some true⟩ " " ⟨[], false, some true⟩ true rfl rfl⟩⟩

theorem claim_c6_witness :
    pyStrip "not json" ≠ "" ∧ jsonParse (pyStrip "not json") = none ∧
    processLine (fun _ => none) "log.jsonl" initLoopState "not json" =
      .ok { initLoopState with
            blocks := initLoopState.blocks ++ [unparsedLineBlock (pyStrip "not json")] } :=
  ⟨by decide, rfl,
   (claim_c6_unparsed_line (fun _ => none) "log.jsonl" initLoopState "not json"
      (by decide) rfl).1⟩

theorem claim_c8_witness :
    (render_jsonl_blocks (fun _ => none) "log.jsonl" ["\x7b\"instructions\": \"x\"\x7d"] =
        .ok ⟨[""], true, some false⟩ ∧
     countHdr (⟨[""], true, some false⟩ : LoopState).blocks ≤ 1) ∧
    (initLoopState.headerDone = false ∧
     processLine (fun _ => none) "log.jsonl" initLoopState "\x7b\"instructions\": \"x\"\x7d" =
        .ok ⟨[""], true, some false⟩ ∧
     (⟨[""], true, some false⟩ : LoopState).headerDone = true ∧
     ∃ hdr, (⟨[""], true, some false⟩ : LoopState).blocks = initLoopState.blocks ++ [hdr] ∧
        (hdr = "" ∨ isHeaderBlockB hdr = true)) :=
  ⟨⟨rfl, claim_c8_single_session_header.1 (fun _ => none) "log.jsonl"
      ["\x7b\"instructions\": \"x\"\x7d"] ⟨[""], true, some false⟩ rfl⟩,
   ⟨rfl, rfl, rfl, claim_c8_single_session_header.2 (fun _ => none) "log.jsonl"
      initLoopState "\x7b\"instructions\": \"x\"\x7d" ⟨[""], true, some false⟩ rfl rfl rfl⟩⟩

theorem claim_c10_witness :
    (metaHeaderEmpty (.obj [("instructions", .str "x")]) = true ∧
     render_session_header (.obj [("instructions", .str "x")]) "log.jsonl" "" = .ok "") ∧
    ((⟨[""], true, some false⟩ : LoopState).headerDone = true ∧
     [" "].foldlM (processLine (fun _ => none) "log.jsonl") ⟨[""], true, some false⟩ =
        .ok ⟨[""], true, some false⟩ ∧
     countHdr (⟨[""], true, some false⟩ : LoopState).blocks =
        countHdr (⟨[""], true, some false⟩ : LoopState).blocks) :=
  ⟨⟨by decide, claim_c10_empty_header_suppresses_all.1 (.obj [("instructions", .str "x")])
      "log.jsonl" "" (by decide)⟩,
   ⟨rfl, rfl, claim_c10_empty_header_suppresses_all.2 (fun _ => none) "log.jsonl" [" "]
      ⟨[""], true, some false⟩ ⟨[""], true, some false⟩ rfl rfl⟩⟩

theorem claim_c5_witness :
    extractOutputBody (.obj [("output", .str "hello")]) = .ok "hello" ∧
    ((render_function_output (fun _ => none) (.obj [("output", .str "hello")]) "" = .ok "" ↔
        pyStrip "hello" = "Plan updated") ∧
     (pyStrip "hello" ≠ "Plan updated" →
       render_function_output (fun _ => none) (.obj [("output", .str "hello")]) "" =
         .ok (funcOutputHtml (isLargeOutput (fun _ => none) "hello") "" "hello") ∧
       funcOutputHtml (isLargeOutput (fun _ => none) "hello") "" "hello" ≠ "")) :=
  ⟨rfl, claim_c5_plan_updated_suppressed (fun _ => none)
    (.obj [("output", .str "hello")]) "" "hello" rfl⟩

theorem claim_c4_witness :
    extractOutputBody (.obj [("output", .str "hello")]) = .ok "hello" ∧
    pyStrip "hello" ≠ "Plan updated" ∧
    (("hello".length : Int) < envThresh (fun _ => none) "COLLAPSE_OUTPUT_CHAR_THRESHOLD" 15000 ∧
     (countNl "hello" : Int) + 1 <
        envThresh (fun _ => none) "COLLAPSE_OUTPUT_LINE_THRESHOLD" 300) ∧
    render_function_output (fun _ => none) (.obj [("output", .str "hello")]) "" =
      .ok (funcOutputHtml false "" "hello") :=
  ⟨rfl, by decide, by decide,
   (claim_c4_collapse_thresholds (fun _ => none) (.obj [("output", .str "hello")]) "" "hello"
      rfl (by decide)).2 (by decide)⟩

theorem claim_c9_witness :
    falsyOrArrAll nonSummaryText
      (jLookup [("summary", JValue.arr [JValue.obj [("type", JValue.str "other")]])] "summary")
      = true ∧
    render_reasoning
      (.obj [("summary", JValue.arr [JValue.obj [("type", JValue.str "other")]])]) "" = .ok "" :=
  ⟨by decide, claim_c9_reasoning_empty
    [("summary", JValue.arr [JValue.obj [("type", JValue.str "other")]])] "" (by decide)⟩

theorem claim_c3_witness :
    ((jLookup [("name", JValue.str "shell"),
        ("arguments", JValue.obj [("command",
          JValue.arr [JValue.str "apply_patch", JValue.str "hi"])])] "name").getD
        (.str "function")).eqStr "update_plan" = false ∧
    jLookup [("name", JValue.str "shell"),
        ("arguments", JValue.obj [("command",
          JValue.arr [JValue.str "apply_patch", JValue.str "hi"])])] "arguments" =
      some (.obj [("command", JValue.arr [JValue.str "apply_patch", JValue.str "hi"])]) ∧
    jLookup [("command", JValue.arr [JValue.str "apply_patch", JValue.str "hi"])] "command" =
      some (.arr (.str "apply_patch" :: .str "hi" :: [])) ∧
    (render_function_call (.obj [("name", JValue.str "shell"),
        ("arguments", JValue.obj [("command",
          JValue.arr [JValue.str "apply_patch", JValue.str "hi"])])]) "" =
      .ok (applyPatchHtml "" (esc (b64OfString "hi")) (esc "hi")) ∧
     esc (b64OfString "hi") = b64OfString "hi" ∧
     decodeRawB64Attr (esc (b64OfString "hi")) = some "hi") :=
  ⟨by decide, rfl, rfl,
   claim_c3_apply_patch_roundtrip
     [("name", JValue.str "shell"),
      ("arguments", JValue.obj [("command",
        JValue.arr [JValue.str "apply_patch", JValue.str "hi"])])]
     [("command", JValue.arr [JValue.str "apply_patch", JValue.str "hi"])]
     [] "" "hi" (by decide) rfl rfl⟩

theorem claim_c7_witness :
    containsOpen (sanitize_html "<script>alert(1)</script>").data = false ∧
    containsOpen "hello".data = false ∧ sanitize_html "hello" = "hello" :=
  ⟨claim_c7_sanitize_no_script_open.1 "<script>alert(1)</script>",
   by decide, claim_c7_sanitize_no_script_open.2 "hello" (by decide)⟩
